import Mathlib

/-!
Verification of the incremental chat-export core (extraction controller,
incremental store, retention analyzer) against its natural-language
specification.

The TypeScript sources are shallowly embedded:
* strings are `String` / `List Char`, regular-expression scans are
  translated into explicit structural scanners with the same leftmost /
  greedy semantics as the patterns used in the source;
* JavaScript runtime facilities that the code calls but does not define
  (`new Date(s).getTime()`, `Date.prototype.toDateString`,
  `Date.prototype.toLocaleDateString`, and the HTML-to-text normalizer,
  which no claim under verification depends on) are collected in a `JsEnv`
  record; theorems quantify over the environment and constrain only the
  values they actually use, witnesses instantiate it with explicit
  functions;
* `fs` effects are made explicit: an archive file is `Option String`
  (`none` = the file does not exist) and `saveChat` returns the written
  count together with the new file state;
* JavaScript numbers holding integral values are `Int`; a possibly-NaN
  value is `Option Int` with `none` playing the role of `NaN` (every
  `NaN` comparison is false, as in JS).
-/

/-- The ASCII / Latin-1 characters matched by the JavaScript `\s` class
(the sources only ever apply it to such characters). -/
def jsIsSpace (c : Char) : Bool :=
  c = ' ' || c = '\t' || c = '\n' || c = '\r' ||
  c = '\x0b' || c = '\x0c' || c = ' '

/-- JS `>` on two date values where `none` models an invalid date (`NaN`):
any comparison against `NaN` is false. -/
def jsGtOpt : Option Int → Option Int → Bool
  | some x, some y => decide (y < x)
  | _, _ => false

/-- JS `>=` on two date values, `none` = `NaN`. -/
def jsGeOpt : Option Int → Option Int → Bool
  | some x, some y => decide (y ≤ x)
  | _, _ => false

/-- JS `<=` on two date values, `none` = `NaN`. -/
def jsLeOpt : Option Int → Option Int → Bool
  | some x, some y => decide (x ≤ y)
  | _, _ => false

/-- Numeric value of a list of decimal digit characters. -/
def digitsToNat (ds : List Char) : Nat :=
  ds.foldl (fun acc c => acc * 10 + (c.toNat - 48)) 0

/-- Model of `parseInt(s, 10)`: skip leading whitespace, read an optional sign and
then a maximal run of decimal digits; `none` models `NaN` (no digits). -/
def parseJsInt (s : String) : Option Int :=
  let cs := s.data.dropWhile jsIsSpace
  let signed : Bool × List Char :=
    match cs with
    | '-' :: t => (true, t)
    | '+' :: t => (false, t)
    | _ => (false, cs)
  let ds := signed.2.takeWhile Char.isDigit
  if ds.isEmpty then none
  else some ((if signed.1 then -1 else 1) * (digitsToNat ds : Int))

/-- Model of `String.prototype.trim()`: strip `\s` from both ends. -/
def jsTrim (s : String) : String :=
  String.mk (((s.data.dropWhile jsIsSpace).reverse.dropWhile jsIsSpace).reverse)

/-- Model of `String.prototype.trimEnd()` on a character list. -/
def trimEndL (cs : List Char) : List Char :=
  (cs.reverse.dropWhile jsIsSpace).reverse

/-- JS `"\n"`-split of a character list (`"".split("\n")` is `[""]`,
empty segments are preserved). -/
def splitNlL : List Char → List (List Char)
  | [] => [[]]
  | c :: rest =>
    if c = '\n' then [] :: splitNlL rest
    else
      match splitNlL rest with
      | h :: t => (c :: h) :: t
      | [] => [[c]]

/-- Remove the first occurrence of `pat` from a character list
(`String.prototype.replace` with a plain-string pattern and empty
replacement). -/
def removeFirstOcc (pat : List Char) : List Char → List Char
  | [] => []
  | c :: rest =>
    if pat.isPrefixOf (c :: rest) then (c :: rest).drop pat.length
    else c :: removeFirstOcc pat rest

/-- The literal opening of the archive cursor marker. -/
def markerOpen : List Char := "<!-- last-message: ".data

/-- The literal closing of the archive cursor marker. -/
def markerClose : List Char := " -->".data

/-- The full cursor-marker line for a timestamp string
(`<!-- last-message: TS -->`). -/
def markerString (ts : String) : String :=
  "<!-- last-message: " ++ ts ++ " -->"

/-- Match, at the head of `cs`, the regex
`<!-- last-message: (\d{4}-\d{2}-\d{2}T[^\s]+) -->` from
`getLatestTimestamp`, returning the capture.  The greedy `[^\s]+` run
must be followed by `" -->"`; since the run cannot contain the space that
begins `" -->"`, the maximal run is the only candidate. -/
def matchMarkerAt (cs : List Char) : Option (List Char) :=
  if markerOpen.isPrefixOf cs then
    let rest := cs.drop markerOpen.length
    match rest with
    | y1 :: y2 :: y3 :: y4 :: '-' :: m1 :: m2 :: '-' :: d1 :: d2 :: 'T' :: tail =>
      if (y1.isDigit && y2.isDigit && y3.isDigit && y4.isDigit &&
          m1.isDigit && m2.isDigit && d1.isDigit && d2.isDigit) then
        let run := tail.takeWhile (fun c => !jsIsSpace c)
        if run.isEmpty then none
        else if markerClose.isPrefixOf (tail.drop run.length) then
          some ([y1, y2, y3, y4, '-', m1, m2, '-', d1, d2, 'T'] ++ run)
        else none
      else none
    | _ => none
  else none

/-- Leftmost match of the cursor-marker regex in a character list
(`String.prototype.match` without the `g` flag), returning the capture. -/
def findMarkerCapture : List Char → Option (List Char)
  | [] => none
  | c :: rest =>
    match matchMarkerAt (c :: rest) with
    | some cap => some cap
    | none => findMarkerCapture rest

/-- Pure part of `getLatestTimestamp` (src/lib/markdown.ts), split into its pure part:
read the file (`none` if it does not exist), match the cursor-marker regex
and return the captured timestamp string.  (The source immediately wraps
the capture in `new Date(...)`; call sites apply the environment's
`dateOf` to this string.) -/
def getLatestTimestampStr (file : Option String) : Option String :=
  file.bind (fun content => (findMarkerCapture content.data).map String.mk)

/-- Match, at the head of `cs`, the end-anchored strip regex
`<!-- last-message: [^\s]+ -->\n?$` from `saveChat`: the marker literal, a
nonempty run of non-space characters, `" -->"`, an optional newline, then
end of input. -/
def matchTrailAt (cs : List Char) : Bool :=
  if markerOpen.isPrefixOf cs then
    let rest := cs.drop markerOpen.length
    let run := rest.takeWhile (fun c => !jsIsSpace c)
    if run.isEmpty then false
    else
      let after := rest.drop run.length
      after = markerClose || after = markerClose ++ ['\n']
  else false

/-- Model of `content.replace(/<!-- last-message: [^\s]+ -->\n?$/, "")`: delete the
leftmost (hence, as the match must extend to the end of the string, the
only) end-anchored trailing cursor marker. -/
def stripTrailingMarkerL : List Char → List Char
  | [] => []
  | c :: rest =>
    if matchTrailAt (c :: rest) then []
    else c :: stripTrailingMarkerL rest

/-- A message as extracted from the chat view (src/lib/extract.ts,
`ExtractedMessage`).  `id` is the numeric message id; `none` models the
`NaN` produced when `parseInt` fails. -/
structure ExtractedMessage where
  id : Option Int
  author : String
  timestamp : String
  contentHtml : String
deriving Repr, DecidableEq

/-- The JavaScript runtime facilities used by the embedded code but not
defined by it.  `dateOf` is `new Date(s).getTime()` (`none` = `NaN`),
`dayKey` is `new Date(s).toDateString()`, `fmtDate` is the locale day
heading produced by `formatDate`, and `htmlToText` is the HTML-to-text
normalizer of src/lib/markdown.ts, whose internals no claim under
verification depends on. -/
structure JsEnv where
  dateOf : String → Option Int
  dayKey : String → String
  fmtDate : String → String
  htmlToText : String → String

/-- The line-accumulating loop of `messagesToMarkdown`
(src/lib/markdown.ts): state is (`lastAuthor`, `lastDateStr`, the lines
pushed so far). -/
def mtmLoop (env : JsEnv) : List ExtractedMessage → String → String → List String → List String
  | [], _, _, lines => lines
  | msg :: rest, lastAuthor, lastDateStr, lines =>
    let dateStr := env.dayKey msg.timestamp
    let content := env.htmlToText msg.contentHtml
    let newDay := dateStr ≠ lastDateStr
    let lines1 :=
      if newDay then
        (if lastDateStr ≠ "" then lines ++ ["", "---", ""] else lines) ++
          ["## " ++ env.fmtDate msg.timestamp, ""]
      else lines
    let lastAuthor1 := if newDay then "" else lastAuthor
    let lines2 :=
      if msg.author ≠ lastAuthor1 then
        lines1 ++ ["**" ++ msg.author ++ "** [" ++ msg.timestamp ++ "]:"]
      else
        lines1 ++ ["*[" ++ msg.timestamp ++ "]:*"]
    let lastAuthor2 := if msg.author ≠ lastAuthor1 then msg.author else lastAuthor1
    let lines3 := lines2 ++ (splitNlL content.data).map String.mk ++ [""]
    mtmLoop env rest lastAuthor2 dateStr lines3

/-- The list of output lines of `messagesToMarkdown`. -/
def messagesToMarkdownLines (env : JsEnv) (messages : List ExtractedMessage) : List String :=
  mtmLoop env messages "" "" []

/-- Model of JS `Array.prototype.join("\n")`. -/
def joinNl : List String → String
  | [] => ""
  | [x] => x
  | x :: y :: t => x ++ "\n" ++ joinNl (y :: t)

/-- Function `messagesToMarkdown` (src/lib/markdown.ts): render a message batch to
Markdown, day-grouped, with a bold author label on speaker change and a
time-only continuation line otherwise. -/
def messagesToMarkdown (env : JsEnv) (messages : List ExtractedMessage) : String :=
  if messages.isEmpty then ""
  else joinNl (messagesToMarkdownLines env messages)

/-- The filesystem-hostile characters replaced by `sanitizeFilename`. -/
def hostileChars : List Char := ['/', '\\', ':', '*', '?', '"', '<', '>', '|']

/-- Replace every maximal run of characters satisfying `p` by the single
character `rep` (the `/X+/g → "_"` replacements of `sanitizeFilename`);
`inRun` records whether the previous character was part of a run. -/
def collapseRuns (p : Char → Bool) (rep : Char) : Bool → List Char → List Char
  | _, [] => []
  | inRun, c :: rest =>
    if p c then
      if inRun then collapseRuns p rep true rest
      else rep :: collapseRuns p rep true rest
    else c :: collapseRuns p rep false rest

/-- Model of `replace(/^_|_$/g, "")`: remove one leading and one trailing
underscore (after run-collapsing there is at most one of each). -/
def trimOneUnderscore (cs : List Char) : List Char :=
  let cs1 := match cs with
    | '_' :: t => t
    | other => other
  match cs1.reverse with
  | '_' :: t => t.reverse
  | _ => cs1

/-- Function `sanitizeFilename` (src/lib/markdown.ts): hostile characters to `_`,
whitespace runs to `_`, underscore runs collapsed, one leading/trailing
underscore trimmed, result cut to 200 characters. -/
def sanitizeFilename (name : String) : String :=
  let s1 := name.data.map (fun c => if hostileChars.contains c then '_' else c)
  let s2 := collapseRuns jsIsSpace '_' false s1
  let s3 := collapseRuns (fun c => c = '_') '_' false s2
  String.mk ((trimOneUnderscore s3).take 200)

/-- Function `saveChat` (src/lib/markdown.ts) with the filesystem made explicit:
`file` is the current content of the chat's archive (`none` = absent),
`now` is `new Date().toISOString()` at call time.  Returns the count of
newly written messages and the new file state. -/
def saveChat (env : JsEnv) (chatName : String) (messages : List ExtractedMessage)
    (file : Option String) (now : String) : Nat × Option String :=
  let lastTimestamp : Option (Option Int) := (getLatestTimestampStr file).map env.dateOf
  let newMessages :=
    match lastTimestamp with
    | none => messages
    | some c => messages.filter (fun m => jsGtOpt (env.dateOf m.timestamp) c)
  if h : newMessages = [] then (0, file)
  else
    let markdown := messagesToMarkdown env newMessages
    let lastMsg := newMessages.getLast h
    let metadata := markerString lastMsg.timestamp
    match file, lastTimestamp with
    | some existing, some _ =>
      let cleaned := stripTrailingMarkerL existing.data
      let appended :=
        String.mk (trimEndL cleaned) ++ "\n\n---\n\n" ++
          "### Export appended: " ++ now ++ "\n\n" ++
          markdown ++ "\n" ++ metadata ++ "\n"
      (newMessages.length, some appended)
    | _, _ =>
      let content :=
        "# " ++ chatName ++ "\n\nExported: " ++ now ++ "\n\n" ++
          markdown ++ "\n" ++ metadata ++ "\n"
      (newMessages.length, some content)

/-- Days from the epoch of the civil date `(y, m, d)` (`m` in 1..12, `d`
may carry any integer offset), the standard civil-calendar algorithm; used
to model JavaScript `Date` time values exactly. -/
def daysFromCivil (y m d : Int) : Int :=
  let y2 := if m ≤ 2 then y - 1 else y
  let era := Int.fdiv y2 400
  let yoe := y2 - era * 400
  let mp := Int.emod (m + 9) 12
  let doy := Int.fdiv (153 * mp + 2) 5 + d - 1
  let doe := yoe * 365 + Int.fdiv yoe 4 - Int.fdiv yoe 100 + doy
  era * 146097 + doe - 719468

/-- Read two decimal digits from the head of a character list. -/
def twoDigits : List Char → Option (Int × List Char)
  | a :: b :: rest =>
    if a.isDigit && b.isDigit then
      some (((a.toNat - 48) * 10 + (b.toNat - 48) : Nat), rest)
    else none
  | _ => none

/-- A concrete instantiation of the environment's `dateOf`: epoch
milliseconds of a canonical `YYYY-MM-DDTHH:MM(:SS(.sss)?)?Z` instant, the
only shapes the exporter itself ever produces.  Agrees with
`new Date(s).getTime()` on such strings. -/
def parseIsoDate (s : String) : Option Int :=
  match s.data with
  | y1 :: y2 :: y3 :: y4 :: '-' :: rest =>
    if y1.isDigit && y2.isDigit && y3.isDigit && y4.isDigit then
      let y : Int := (digitsToNat [y1, y2, y3, y4] : Nat)
      match twoDigits rest with
      | some (mo, '-' :: r2) =>
        match twoDigits r2 with
        | some (d, 'T' :: r3) =>
          match twoDigits r3 with
          | some (h, ':' :: r4) =>
            match twoDigits r4 with
            | some (mi, r5) =>
              let base := fun (sec ms : Int) =>
                some ((daysFromCivil y mo d) * 86400000 + h * 3600000 +
                  mi * 60000 + sec * 1000 + ms)
              match r5 with
              | [] => base 0 0
              | ['Z'] => base 0 0
              | ':' :: r6 =>
                match twoDigits r6 with
                | some (sec, ['Z']) => base sec 0
                | some (sec, []) => base sec 0
                | some (sec, '.' :: a :: b :: c :: ['Z']) =>
                  if a.isDigit && b.isDigit && c.isDigit then
                    base sec ((digitsToNat [a, b, c] : Nat))
                  else none
                | _ => none
              | _ => none
            | none => none
          | _ => none
        | _ => none
      | _ => none
    else none
  | _ => none

/-- A concrete witness environment: real ISO instants, the UTC calendar
day as day key, a day heading derived from the date part, and an
HTML-to-text normalizer that is the identity on the plain-text contents
the witnesses use (the real normalizer is the identity on tag-free,
entity-free text). -/
def envIso : JsEnv where
  dateOf := parseIsoDate
  dayKey := fun s => String.mk (s.data.take 10)
  fmtDate := fun s => "Day " ++ String.mk (s.data.take 10)
  htmlToText := fun s => s

/-- A raw collected child node of the chat list, reduced to the DOM
observations the extraction script makes of it: the `id` attribute of its
`[id^="message-body-"]` descendant (if any), whether it carries an
`[aria-label="Animated GIF"]` descendant, the `datetime` attribute of its
`[id^="timestamp-"]` descendant, the author element's text, and the
content element's text (the texts are taken after the script's
emoji/mention/quote clone transforms). -/
structure RawNode where
  bodyId : Option String
  gif : Bool
  datetime : Option String
  author : Option String
  contentText : Option String
deriving Repr, DecidableEq

/-- The numeric message id of a node:
`parseInt(msg.id.replace("message-body-", ""), 10)`; `none` is `NaN`. -/
def nodeKey (s : String) : Option Int :=
  parseJsInt (String.mk (removeFirstOcc ("message-body-".data) s.data))

/-- The `Map`-building dedup pass of the extraction scripts
(src/lib/extract.ts): walk the collected nodes in order, skip nodes
without a message body or with an animated-GIF marker, and keep the first
node seen for each id (a JS `Map` preserves insertion order, hence the
accumulator list). -/
def dedupAux : List RawNode → List (Option Int × RawNode) → List (Option Int × RawNode)
  | [], acc => acc
  | n :: rest, acc =>
    match n.bodyId with
    | some s =>
      if n.gif then dedupAux rest acc
      else
        let id := nodeKey s
        if (acc.find? (fun p => p.1 == id)).isSome then dedupAux rest acc
        else dedupAux rest (acc ++ [(id, n)])
    | none => dedupAux rest acc

/-- Dedup with the empty initial map. -/
def dedupNodes (collected : List RawNode) : List (Option Int × RawNode) :=
  dedupAux collected []

/-- Sort key: a `NaN` id (unparseable) compares as `0` — the ECMAScript
comparator `a[0] - b[0]` returns `NaN` there, which `Array.prototype.sort`
treats as "equal"; its resulting order is implementation-defined, and no
claim involves such ids. -/
def keyVal : Option Int → Int
  | none => 0
  | some x => x

/-- Model of `entries.sort(function(a, b) { return a[0] - b[0]; })`: stable
ascending sort by id. -/
def sortEntries (l : List (Option Int × RawNode)) : List (Option Int × RawNode) :=
  l.insertionSort (fun a b => keyVal a.1 ≤ keyVal b.1)

/-- The full dedup-and-sequence step: unique nodes ascending by id. -/
def sequencedNodes (collected : List RawNode) : List RawNode :=
  (sortEntries (dedupNodes collected)).map Prod.snd

/-- The final date-range trim of `getExtractionScript`: with a cutoff
configured, keep nodes with no timestamp element, or whose timestamp is
at or after the cutoff (`new Date(attr) >= cutoffDate`; `NaN` drops). -/
def dateTrimNodes (env : JsEnv) (cutoff : Option Int) (nodes : List RawNode) : List RawNode :=
  match cutoff with
  | none => nodes
  | some cd =>
    nodes.filter (fun n =>
      match n.datetime with
      | none => true
      | some dt => jsGeOpt (env.dateOf dt) (some cd))

/-- One iteration of the structured-data extraction loop: a node missing
its author, timestamp or content element is skipped (`continue`). -/
def extractOne (n : RawNode) : Option ExtractedMessage :=
  match n.author, n.datetime, n.contentText with
  | some a, some t, some c =>
    let msgId := match n.bodyId with
      | some s => nodeKey s
      | none => some 0
    some { id := msgId, author := jsTrim a, timestamp := t, contentHtml := c }
  | _, _, _ => none

/-- The extraction loop over the sequenced nodes. -/
def extractLoop : List RawNode → List ExtractedMessage
  | [] => []
  | n :: rest =>
    match extractOne n with
    | some m => m :: extractLoop rest
    | none => extractLoop rest

/-- The result shape returned by the extraction scripts. -/
structure ExtractionResult where
  messages : List ExtractedMessage
  error : Option String
deriving Repr, DecidableEq

/-- The post-scroll tail of both extraction scripts
(src/lib/extract.ts): dedup and sort the collected nodes, apply the date
trim, fail with an explicit reason only when no node remains, otherwise
extract per-node data skipping malformed nodes. -/
def extractPipeline (env : JsEnv) (cutoff : Option Int) (collected : List RawNode) :
    ExtractionResult :=
  let nodes := dateTrimNodes env cutoff (sequencedNodes collected)
  if nodes.isEmpty then
    { messages := [], error := some "No messages could be extracted." }
  else
    { messages := extractLoop nodes, error := none }

/-- State of the upward (history-loading) scroll loop of
`getExtractionScript`: the consecutive-stall counter and the previously
observed oldest timestamp (`none` = none observed). -/
structure UpState where
  noChange : Nat
  prevOldest : Option Int
deriving Repr, DecidableEq

/-- One cycle of the upward `while (true)` scroll loop.  `cutoff` is the
effective cutoff (`cutoffDate || sinceDate`), `oldest` the oldest
timestamp among all nodes collected so far this cycle; `none` is the
break. -/
def upStep (cutoff oldest : Option Int) (s : UpState) : Option UpState :=
  if (match cutoff, oldest with
      | some c, some o => decide (o ≤ c)
      | _, _ => false) then none
  else
    let changed := s.prevOldest.isNone || oldest.isNone || decide (oldest ≠ s.prevOldest)
    if changed then some ⟨0, oldest⟩
    else if 3 ≤ s.noChange + 1 then none
    else some ⟨s.noChange + 1, oldest⟩

/-- The upward loop after `n` cycles against an oracle giving the oldest
collected timestamp at each cycle; `none` means the loop has broken by
cycle `n`. -/
def upIter (oldestAt : Nat → Option Int) (cutoff : Option Int) : Nat → Option UpState
  | 0 => some ⟨0, none⟩
  | n + 1 => (upIter oldestAt cutoff n).bind (upStep cutoff (oldestAt (n + 1)))

/-- The upward loop terminates against the given host-view behavior. -/
def upHalts (oldestAt : Nat → Option Int) (cutoff : Option Int) : Prop :=
  ∃ n, upIter oldestAt cutoff n = none

/-- A host view whose observable oldest timestamp strictly decreases on
every cycle. -/
def everChangingOldest (n : Nat) : Option Int :=
  some (-(n : Int))

/-- State of the downward scroll loop of
`getScrollDownExtractionScript`. -/
structure DownState where
  noChange : Nat
  prevCount : Nat
deriving Repr, DecidableEq

/-- One cycle of the downward loop body: `count` is the unique-message
count observed this cycle, `atBottom` the end-of-list test; `none` is the
break.  (The `noChangeCount === 4` escalation jump only changes what the
oracle reports on later cycles.) -/
def downStep (count : Nat) (atBottom : Bool) (s : DownState) : Option DownState :=
  let nc := if count = s.prevCount then s.noChange + 1 else 0
  if count = s.prevCount ∧ 8 ≤ nc then none
  else if atBottom then
    if 5 ≤ nc + 1 then none else some ⟨nc + 1, count⟩
  else some ⟨nc, count⟩

/-- Run the downward `for (var step = 0; step < 5000; step++)` loop with
the given remaining iteration budget, returning the number of executed
cycles. -/
def downRun (countAt : Nat → Nat) (botAt : Nat → Bool) : Nat → Nat → DownState → Nat
  | 0, _, _ => 0
  | fuel + 1, i, s =>
    match downStep (countAt i) (botAt i) s with
    | none => 1
    | some s2 => 1 + downRun countAt botAt fuel (i + 1) s2

/-- Cycles executed by the downward loop: budget 5000, initial state
`noChangeCount = 0`, `prevCount = 0`. -/
def downCycles (countAt : Nat → Nat) (botAt : Nat → Bool) : Nat :=
  downRun countAt botAt 5000 0 ⟨0, 0⟩

/-- The fixed catalogue of known retention tiers
(src/lib/retention.ts, `MS_RETENTION_TIERS`). -/
def msRetentionTiers : List (Int × String) :=
  [(30, "30 days"), (60, "60 days"), (90, "90 days"), (120, "120 days"),
   (180, "180 days"), (365, "1 year (365 days)"), (730, "2 years (730 days)"),
   (1095, "3 years"), (1825, "5 years"), (2555, "7 years")]

/-- Function `findNearestTier` (src/lib/retention.ts): the tier with the smallest
absolute day distance, first tier winning ties. -/
def findNearestTier (days : Int) : Option (Int × String) :=
  (msRetentionTiers.foldl
    (fun best tier =>
      let distance := (tier.1 - days).natAbs
      match best with
      | none => some (tier, distance)
      | some (bt, bd) =>
        if distance < bd then some (tier, distance) else some (bt, bd))
    none).map Prod.fst

/-- Match, at the head of `cs`, the archive-scan regex
`\[(\d{2}\.\d{2}\.\d{4},\s*\d{2}:\d{2})\]` (src/lib/retention.ts),
returning the capture (without the brackets) and the remaining input
after the match. -/
def matchTsAt : List Char → Option (List Char × List Char)
  | '[' :: d1 :: d2 :: '.' :: m1 :: m2 :: '.' :: y1 :: y2 :: y3 :: y4 :: ',' :: rest =>
    if (d1.isDigit && d2.isDigit && m1.isDigit && m2.isDigit &&
        y1.isDigit && y2.isDigit && y3.isDigit && y4.isDigit) then
      let ws := rest.takeWhile jsIsSpace
      match rest.drop ws.length with
      | h1 :: h2 :: ':' :: mi1 :: mi2 :: ']' :: after =>
        if h1.isDigit && h2.isDigit && mi1.isDigit && mi2.isDigit then
          some ([d1, d2, '.', m1, m2, '.', y1, y2, y3, y4, ','] ++ ws ++
            [h1, h2, ':', mi1, mi2], after)
        else none
      | _ => none
    else none
  | _ => none

/-- The `g`-flagged scan of the archive-timestamp regex: successive
non-overlapping leftmost matches.  `fuel` bounds the recursion; each step
consumes at least one character, so `cs.length` is always enough. -/
def tsScanAux : Nat → List Char → List (List Char)
  | 0, _ => []
  | _, [] => []
  | fuel + 1, c :: rest =>
    match matchTsAt (c :: rest) with
    | some (cap, after) => cap :: tsScanAux fuel after
    | none => tsScanAux fuel rest

/-- All embedded display timestamps of an archive, in scan order. -/
def tsScan (content : String) : List (List Char) :=
  tsScanAux content.data.length content.data

/-- Match, at the head of `cs`, the `parseGermanDate` regex
`(\d{2})\.(\d{2})\.(\d{4}),\s*(\d{2}):(\d{2})` returning
(day, month, year, hour, minute). -/
def matchGermAt : List Char → Option (Int × Int × Int × Int × Int)
  | d1 :: d2 :: '.' :: m1 :: m2 :: '.' :: y1 :: y2 :: y3 :: y4 :: ',' :: rest =>
    if (d1.isDigit && d2.isDigit && m1.isDigit && m2.isDigit &&
        y1.isDigit && y2.isDigit && y3.isDigit && y4.isDigit) then
      let ws := rest.takeWhile jsIsSpace
      match rest.drop ws.length with
      | h1 :: h2 :: ':' :: mi1 :: mi2 :: _ =>
        if h1.isDigit && h2.isDigit && mi1.isDigit && mi2.isDigit then
          some ((digitsToNat [d1, d2] : Nat), (digitsToNat [m1, m2] : Nat),
            (digitsToNat [y1, y2, y3, y4] : Nat),
            (digitsToNat [h1, h2] : Nat), (digitsToNat [mi1, mi2] : Nat))
        else none
      | _ => none
    else none
  | _ => none

/-- Leftmost match of the `parseGermanDate` pattern anywhere in the
input. -/
def pgdSearch : List Char → Option (Int × Int × Int × Int × Int)
  | [] => none
  | c :: rest =>
    match matchGermAt (c :: rest) with
    | some r => some r
    | none => pgdSearch rest

/-- Model of `new Date(y, monIdx, d, h, mi).getTime()`: out-of-range fields
normalize by carrying, two-digit years map to 1900+y, and the host's
local timezone is modeled as UTC (all uses stay within one zone). -/
def jsMakeDate (y monIdx d h mi : Int) : Int :=
  let yFull := if 0 ≤ y ∧ y ≤ 99 then y + 1900 else y
  let ySh := yFull + Int.fdiv monIdx 12
  let m := Int.emod monIdx 12
  (daysFromCivil ySh (m + 1) 1 + (d - 1)) * 86400000 + h * 3600000 + mi * 60000

/-- Function `parseGermanDate` (src/lib/retention.ts): find the legacy
`DD.MM.YYYY, HH:MM` pattern and build a local `Date` from its fields
(`new Date(year, month-1, day, hour, minute)`). -/
def parseGermanDate (s : String) : Option Int :=
  (pgdSearch s.data).map (fun r =>
    match r with
    | (d, m, y, h, mi) => jsMakeDate y (m - 1) d h mi)

/-- Function `extractDateRange` (src/lib/retention.ts): scan an archive's content
for bracketed legacy timestamps, parse each (an unparseable occurrence is
skipped, never the archive), and fold min/max/count; `none` when nothing
parsed. -/
def extractDateRange (content : String) : Option (Int × Int × Nat) :=
  let step := fun (st : Option Int × Option Int × Nat) (cap : List Char) =>
    match parseGermanDate (String.mk cap) with
    | none => st
    | some dv =>
      match st with
      | (o, n, cnt) =>
        ((match o with
          | none => some dv
          | some ov => some (if dv < ov then dv else ov)),
         (match n with
          | none => some dv
          | some nv => some (if nv < dv then dv else nv)),
         cnt + 1)
  match (tsScan content).foldl step (none, none, 0) with
  | (some o, some n, cnt) => if cnt = 0 then none else some (o, n, cnt)
  | _ => none

/-- A per-archive date range (src/lib/retention.ts, `ChatDateRange`);
dates are epoch milliseconds. -/
structure ChatDateRange where
  name : String
  oldest : Int
  newest : Int
  ageDays : Int
  messageCount : Nat
deriving Repr, DecidableEq

/-- The analyzer report (src/lib/retention.ts, `VisibilityAnalysis`);
the oldest/newest message fields pair the date with the chat name. -/
structure VisibilityAnalysis where
  chatsAnalyzed : Nat
  chatsWithDates : Nat
  oldestMessage : Option (Int × String)
  newestMessage : Option (Int × String)
  medianOldestAgeDays : Int
  maxOldestAgeDays : Int
  sidebarWindowDays : Int
  explanation : String
  nearestRetentionTier : Option (Int × String)
  chatRanges : List ChatDateRange
deriving Repr, DecidableEq

/-- Split a character list at a separator character, preserving empty
segments (JS `String.prototype.split` with a single-character string). -/
def splitSepL (sep : Char) : List Char → List (List Char)
  | [] => [[]]
  | c :: rest =>
    if c = sep then [] :: splitSepL sep rest
    else
      match splitSepL sep rest with
      | h :: t => (c :: h) :: t
      | [] => [[c]]

/-- The chat name derived from an archive path:
`filePath.split("/").pop().replace(/\.md$/, "").replace(/_/g, " ")`. -/
def chatNameOfPath (p : String) : String :=
  let base := (splitSepL '/' p.data).getLastD []
  let noMd := if (".md".data).isSuffixOf base then base.take (base.length - 3) else base
  String.mk (noMd.map (fun c => if c = '_' then ' ' else c))

/-- The cluster-branch explanation text of `analyzeRetention`. -/
def clusterExplanation (clusterLen : Nat) (clusterDate : String) (maxAge : Int) : String :=
  toString clusterLen ++ " chats cluster around " ++ clusterDate ++
    " (~" ++ toString maxAge ++ " days ago), " ++
    "suggesting this is your account start date or the Teams sidebar visibility window. " ++
    "Teams hides inactive chats from the sidebar — older conversations may exist " ++
    "but weren\x27t exported because they weren\x27t visible. " ++
    "To find hidden chats: search for a contact name in Teams, then re-export."

/-- The generic-branch explanation text of `analyzeRetention`. -/
def genericExplanation (maxAge : Int) : String :=
  "Oldest exported messages are " ++ toString maxAge ++ " days old. " ++
    "This reflects what was visible in the Teams sidebar at export time. " ++
    "Teams hides inactive chats — there may be older conversations accessible via search."

/-- The per-file range-collection loop of `analyzeRetention`
(src/lib/retention.ts) with the filesystem made explicit: `files` is the
glob result as (path, content) pairs, `now` the current epoch
milliseconds.  Archives yielding no parseable timestamp are skipped. -/
def chatRangesOf (now : Int) (files : List (String × String)) : List ChatDateRange :=
  files.filterMap (fun f =>
    (extractDateRange f.2).map (fun r =>
      match r with
      | (o, n, cnt) =>
        { name := chatNameOfPath f.1, oldest := o, newest := n,
          ageDays := Int.fdiv (now - o) 86400000,
          messageCount := cnt : ChatDateRange }))

/-- Function `analyzeRetention` (src/lib/retention.ts) continued: sort the ranges
by age descending and aggregate; `fmtDE` is the host's
`toLocaleDateString("de-DE", …)` rendering of a date value. -/
def analyzeRetention (fmtDE : Int → String) (now : Int)
    (files : List (String × String)) : VisibilityAnalysis :=
  let sorted := (chatRangesOf now files).insertionSort (fun a b => b.ageDays ≤ a.ageDays)
  match sorted with
  | [] =>
    { chatsAnalyzed := files.length, chatsWithDates := 0,
      oldestMessage := none, newestMessage := none,
      medianOldestAgeDays := 0, maxOldestAgeDays := 0, sidebarWindowDays := 0,
      explanation := "No chat files with parseable timestamps found.",
      nearestRetentionTier := none, chatRanges := [] }
  | first :: restR =>
    let all := first :: restR
    let ages := all.map ChatDateRange.ageDays
    let maxAge := ages.headD 0
    let medianAge := ages.getD (ages.length / 2) 0
    let newestChat := restR.foldl (fun a b => if b.newest < a.newest then a else b) first
    let oldestCluster := all.filter (fun c => maxAge - 14 ≤ c.ageDays)
    let explanation :=
      if 3 ≤ oldestCluster.length then
        clusterExplanation oldestCluster.length
          (fmtDE ((oldestCluster.headD first).oldest)) maxAge
      else genericExplanation maxAge
    { chatsAnalyzed := files.length, chatsWithDates := all.length,
      oldestMessage := some (first.oldest, first.name),
      newestMessage := some (newestChat.newest, newestChat.name),
      medianOldestAgeDays := medianAge, maxOldestAgeDays := maxAge,
      sidebarWindowDays := maxAge, explanation := explanation,
      nearestRetentionTier := findNearestTier maxAge,
      chatRanges := all }

/-- The timestamp-string shape that round-trips through the cursor
marker: `\d{4}-\d{2}-\d{2}T` followed by a nonempty run of non-space
characters reaching the end of the string (true of every ISO-8601 instant
the exporter writes). -/
def isoShapeL : List Char → Bool
  | y1 :: y2 :: y3 :: y4 :: '-' :: m1 :: m2 :: '-' :: d1 :: d2 :: 'T' :: tail =>
    y1.isDigit && y2.isDigit && y3.isDigit && y4.isDigit &&
    m1.isDigit && m2.isDigit && d1.isDigit && d2.isDigit &&
    !tail.isEmpty && tail.all (fun c => !jsIsSpace c)
  | _ => false

/-- The lines of a rendered document, split at newlines. -/
def mdLines (md : String) : List String :=
  (splitNlL md.data).map String.mk

/-- Count the rendered lines satisfying a predicate. -/
def countLines (p : String → Bool) (md : String) : Nat :=
  ((mdLines md).filter p).length

/-- A day-heading line (`## …`). -/
def isDayHeadingLine (s : String) : Bool :=
  ("## ".data).isPrefixOf s.data

/-- The day-separator line. -/
def isSepLine (s : String) : Bool :=
  s = "---"

/-- A bold author-label line for the given author (`**A** [ts]:`). -/
def isBoldAuthorLine (author : String) (s : String) : Bool :=
  (("**" ++ author ++ "** [").data).isPrefixOf s.data

/-- A time-only continuation line (`*[ts]:*`). -/
def isContinuationLine (s : String) : Bool :=
  ("*[".data).isPrefixOf s.data

/-- The merge-safety precondition on an existing archive file: if its
content matches the cursor-marker regex at all, then everything outside
its trailing marker is free of `<` (true of every file `saveChat` itself
writes from `<`-free inputs). -/
def FileOk (f : Option String) : Prop :=
  match f with
  | none => True
  | some c =>
    match findMarkerCapture c.data with
    | none => True
    | some _ => '<' ∉ stripTrailingMarkerL c.data

/-- Environment for the rendering claims: the two calendar days used by
the day-grouping scenario, with plain-text contents passed through. -/
def envC8 : JsEnv where
  dateOf := parseIsoDate
  dayKey := fun s =>
    if ("2025-06-15".data).isPrefixOf s.data then "Sun Jun 15 2025" else "Mon Jun 16 2025"
  fmtDate := fun s =>
    if ("2025-06-15".data).isPrefixOf s.data then "Sunday, June 15, 2025"
    else "Monday, June 16, 2025"
  htmlToText := fun s => s

/-- A message with the later timestamp, placed first in the unsorted
batch. -/
def msgLater : ExtractedMessage :=
  ⟨some 2, "Alice", "2025-01-02T00:00:00Z", "Hello"⟩

/-- A message with the earlier timestamp, placed last in the unsorted
batch. -/
def msgEarlier : ExtractedMessage :=
  ⟨some 3, "Alice", "2025-01-01T00:00:00Z", "World"⟩

/-- A batch whose final message does not carry the maximal timestamp. -/
def msgsUnsorted : List ExtractedMessage := [msgLater, msgEarlier]

/-- The same two messages in ascending timestamp order. -/
def msgsAscending : List ExtractedMessage := [msgEarlier, msgLater]

/-- Day-grouping scenario, day one. -/
def msgDayOne : ExtractedMessage :=
  ⟨some 1, "Alice", "2025-06-15T10:00:00Z", "Hello"⟩

/-- Day-grouping scenario, day two, same author. -/
def msgDayTwo : ExtractedMessage :=
  ⟨some 2, "Alice", "2025-06-16T10:00:00Z", "World"⟩

/-- Continuation scenario, first message. -/
def msgSameDayA : ExtractedMessage :=
  ⟨some 1, "Alice", "2025-06-15T10:30:00Z", "First"⟩

/-- Continuation scenario, second message, same author and day. -/
def msgSameDayB : ExtractedMessage :=
  ⟨some 2, "Alice", "2025-06-15T10:31:00Z", "Second"⟩

/-- A collected node that later re-renders as `rawDupOfFirst`. -/
def rawFirst : RawNode :=
  ⟨some "message-body-5", false, some "2025-06-15T10:31:00Z", some "Bob", some "Dup"⟩

/-- A re-collected duplicate of `rawFirst` (same id, different text). -/
def rawDupOfFirst : RawNode :=
  ⟨some "message-body-5", false, some "2025-06-15T10:30:00Z", some " Alice ", some "Hello"⟩

/-- A node carrying an animated-GIF media placeholder. -/
def rawGif : RawNode :=
  ⟨some "message-body-7", true, some "2025-06-15T10:32:00Z", some "Eve", some "gif"⟩

/-- A node with a smaller id collected after the others. -/
def rawSmallId : RawNode :=
  ⟨some "message-body-3", false, some "2025-06-15T09:00:00Z", some "Carol", some "x"⟩

/-- A node with a message body but no author element. -/
def rawNoAuthor : RawNode :=
  ⟨some "message-body-1", false, some "2025-06-15T10:00:00Z", none, some "x"⟩

/-- An archive whose embedded timestamps are in the primary on-disk
(ISO-8601) format — exactly what `saveChat` currently writes. -/
def isoArchive : String :=
  "# Alice\n\nExported: 2025-06-16T09:00:00.000Z\n\n## Sunday, June 15, 2025\n\n**Alice** [2025-06-15T10:30:00Z]:\nHello\n\n*[2025-06-15T11:00:00Z]:*\nAgain\n\n<!-- last-message: 2025-06-15T11:00:00Z -->\n"

/-- An archive in the legacy locale (`DD.MM.YYYY, HH:MM`) timestamp
format. -/
def legacyArchive : String :=
  "# Legacy\n\n**Alice** [15.06.2025, 10:30]:\nHello\n\n**Alice** [15.06.2025, 11:00]:\nAgain\n"

/-- A legacy-format archive file for the cluster scenario. -/
def clusterFile (i : Nat) : String × String :=
  ("out/cluster_" ++ toString i ++ ".md",
   "**A** [01.01.2025, 10:00]:\nx\n\n**A** [15.06.2025, 12:00]:\ny\n")

/-- Four archives whose oldest messages share one date. -/
def clusterFiles : List (String × String) :=
  [clusterFile 0, clusterFile 1, clusterFile 2, clusterFile 3]

/-- An existing archive file that contains no cursor marker. -/
def plainOldContent : String := "# Chat\nHello world\n"

/-- The dedup pass's keep-and-key test: `some key` when the node has a
message body and no animated-GIF marker, `none` when it is skipped. -/
def keepNodeKey (n : RawNode) : Option (Option Int) :=
  match n.bodyId with
  | some s => if n.gif then none else some (nodeKey s)
  | none => none

/-- The new-message filter step of `saveChat`: the whole batch when the
archive has no cursor, otherwise the messages strictly newer than it. -/
def newMessagesOf (env : JsEnv) (messages : List ExtractedMessage)
    (file : Option String) : List ExtractedMessage :=
  match (getLatestTimestampStr file).map env.dateOf with
  | none => messages
  | some c => messages.filter (fun m => jsGtOpt (env.dateOf m.timestamp) c)

/-! Helper lemmas about the cursor-marker scanners. -/

theorem markerOpen_cons : markerOpen = '<' :: "!-- last-message: ".data := rfl

theorem matchMarkerAt_cons_ne (c : Char) (cs : List Char) (hc : c ≠ '<') :
    matchMarkerAt (c :: cs) = none := by
  unfold matchMarkerAt
  rw [markerOpen_cons]
  have h : (('<' :: "!-- last-message: ".data).isPrefixOf (c :: cs)) = false := by
    simp [List.isPrefixOf]
    intro h
    exact absurd h.symm hc
  rw [h]
  simp

theorem findMarkerCapture_cons_none (c : Char) (cs : List Char)
    (h : matchMarkerAt (c :: cs) = none) :
    findMarkerCapture (c :: cs) = findMarkerCapture cs := by
  conv_lhs => rw [findMarkerCapture]
  rw [h]

theorem findMarkerCapture_cons_some (c : Char) (cs cap : List Char)
    (h : matchMarkerAt (c :: cs) = some cap) :
    findMarkerCapture (c :: cs) = some cap := by
  conv_lhs => rw [findMarkerCapture]
  rw [h]

theorem findMarkerCapture_append (pre rest : List Char) (h : '<' ∉ pre) :
    findMarkerCapture (pre ++ rest) = findMarkerCapture rest := by
  induction pre with
  | nil => rfl
  | cons c pre2 ih =>
    have hc : c ≠ '<' := fun he => h (he ▸ List.mem_cons_self c pre2)
    have h2 : '<' ∉ pre2 := fun hm => h (List.mem_cons_of_mem c hm)
    rw [List.cons_append, findMarkerCapture_cons_none c _ (matchMarkerAt_cons_ne c _ hc)]
    exact ih h2

theorem isPrefixOf_append_self (l t : List Char) : l.isPrefixOf (l ++ t) = true := by
  rw [List.isPrefixOf_iff_prefix]
  exact List.prefix_append l t

theorem takeWhile_all_append (p : Char → Bool) (l1 l2 : List Char)
    (h1 : l1.all p = true) (h2 : l2.takeWhile p = []) :
    (l1 ++ l2).takeWhile p = l1 := by
  rw [List.takeWhile_append]
  have he : l1.takeWhile p = l1 :=
    List.takeWhile_eq_self_iff.mpr (by simpa [List.all_eq_true] using h1)
  rw [he, h2]
  simp

theorem matchMarkerAt_marker (ts : String) (rest : List Char)
    (hiso : isoShapeL ts.data = true) :
    matchMarkerAt ((markerString ts).data ++ rest) = some ts.data := by
  have hdata : (markerString ts).data = markerOpen ++ ts.data ++ markerClose := by
    unfold markerString
    rw [String.data_append, String.data_append]
    rfl
  rw [hdata]
  unfold isoShapeL at hiso
  split at hiso
  case _ y1 y2 y3 y4 m1 m2 d1 d2 tail heq =>
    rw [heq]
    simp only [Bool.and_eq_true] at hiso
    obtain ⟨⟨⟨⟨⟨⟨⟨⟨⟨h1, h2⟩, h3⟩, h4⟩, h5⟩, h6⟩, h7⟩, h8⟩, h9⟩, h10⟩ := hiso
    unfold matchMarkerAt
    have hpre : markerOpen.isPrefixOf
        ((markerOpen ++ (y1 :: y2 :: y3 :: y4 :: '-' :: m1 :: m2 :: '-' :: d1 :: d2 :: 'T' :: tail) ++ markerClose) ++ rest) = true := by
      rw [List.append_assoc, List.append_assoc]
      exact isPrefixOf_append_self _ _
    rw [hpre]
    have hdrop : ((markerOpen ++ (y1 :: y2 :: y3 :: y4 :: '-' :: m1 :: m2 :: '-' :: d1 :: d2 :: 'T' :: tail) ++ markerClose) ++ rest).drop markerOpen.length
        = y1 :: y2 :: y3 :: y4 :: '-' :: m1 :: m2 :: '-' :: d1 :: d2 :: 'T' :: (tail ++ (markerClose ++ rest)) := by
      rw [List.append_assoc, List.append_assoc, List.drop_left]
      simp
    rw [hdrop]
    simp only [if_true]
    have hrun : (tail ++ (markerClose ++ rest)).takeWhile (fun c => !jsIsSpace c) = tail := by
      apply takeWhile_all_append _ _ _ h10
      rfl
    simp only [h1, h2, h3, h4, h5, h6, h7, h8, Bool.and_self, if_true, hrun]
    have hte : tail.isEmpty = false := by
      cases he : tail.isEmpty with
      | false => rfl
      | true => rw [he] at h9; exact Bool.noConfusion h9
    rw [hte]
    simp only [Bool.false_eq_true, if_false]
    rw [List.drop_left, isPrefixOf_append_self]
    simp
  case _ =>
    exact Bool.noConfusion hiso

theorem getLatest_constructed (pre ts : String)
    (hpre : '<' ∉ pre.data) (hiso : isoShapeL ts.data = true) :
    getLatestTimestampStr (some (pre ++ markerString ts ++ "\n")) = some ts := by
  unfold getLatestTimestampStr
  rw [Option.some_bind]
  have hd : (pre ++ markerString ts ++ "\n").data =
      pre.data ++ ((markerString ts).data ++ ['\n']) := by
    rw [String.data_append, String.data_append, List.append_assoc]
  rw [hd, findMarkerCapture_append _ _ hpre]
  have hm : matchMarkerAt ((markerString ts).data ++ ['\n']) = some ts.data :=
    matchMarkerAt_marker ts ['\n'] hiso
  have hcons : ∃ c cs, (markerString ts).data ++ ['\n'] = c :: cs := by
    cases he : (markerString ts).data ++ ['\n'] with
    | nil => exact absurd he (by simp)
    | cons c cs => exact ⟨c, cs, rfl⟩
  obtain ⟨c, cs, hc⟩ := hcons
  rw [hc] at hm ⊢
  rw [findMarkerCapture_cons_some c cs ts.data hm]
  cases ts
  rfl

/-! Helper lemmas about rendering and list scanning. -/

theorem mem_splitNlL (cs : List Char) (l : List Char) (hl : l ∈ splitNlL cs) :
    ∀ c ∈ l, c ∈ cs := by
  induction cs generalizing l with
  | nil =>
    intro c hc
    simp [splitNlL] at hl
    rw [hl] at hc
    exact absurd hc (List.not_mem_nil c)
  | cons a rest ih =>
    intro c hc
    unfold splitNlL at hl
    by_cases ha : a = '\n'
    · rw [if_pos ha] at hl
      rcases List.mem_cons.mp hl with he | hm
      · rw [he] at hc; exact absurd hc (List.not_mem_nil c)
      · exact List.mem_cons_of_mem a (ih l hm c hc)
    · rw [if_neg ha] at hl
      cases hs : splitNlL rest with
      | nil =>
        rw [hs] at hl
        simp at hl
        rw [hl] at hc
        simp at hc
        rw [hc]
        exact List.mem_cons_self a rest
      | cons h t =>
        rw [hs] at hl
        rcases List.mem_cons.mp hl with he | hm
        · rw [he] at hc
          rcases List.mem_cons.mp hc with hce | hcm
          · rw [hce]; exact List.mem_cons_self a rest
          · exact List.mem_cons_of_mem a (ih h (hs ▸ List.mem_cons_self h t) c hcm)
        · exact List.mem_cons_of_mem a (ih l (hs ▸ List.mem_cons_of_mem h hm) c hc)

theorem mem_joinNl (lines : List String) (c : Char) (hc : c ∈ (joinNl lines).data) :
    c = '\n' ∨ ∃ l ∈ lines, c ∈ l.data := by
  induction lines with
  | nil => exact absurd hc (by simp [joinNl])
  | cons x rest ih =>
    cases rest with
    | nil =>
      right
      exact ⟨x, List.mem_cons_self x [], by simpa [joinNl] using hc⟩
    | cons y t =>
      rw [show joinNl (x :: y :: t) = x ++ "\n" ++ joinNl (y :: t) from rfl] at hc
      rw [String.data_append, String.data_append] at hc
      rcases List.mem_append.mp hc with h1 | h2
      · rcases List.mem_append.mp h1 with ha | hb
        · exact Or.inr ⟨x, List.mem_cons_self x _, ha⟩
        · left; simpa using hb
      · rcases ih h2 with h | ⟨l, hl, hcl⟩
        · exact Or.inl h
        · exact Or.inr ⟨l, List.mem_cons_of_mem x hl, hcl⟩

theorem forall_mem_append_of {α : Type} (P : α → Prop) (A B : List α)
    (ha : ∀ l ∈ A, P l) (hb : ∀ l ∈ B, P l) : ∀ l ∈ A ++ B, P l := by
  intro l hl
  rcases List.mem_append.mp hl with h | h
  · exact ha l h
  · exact hb l h

theorem forall_mem_ite_of {α : Type} (P : α → Prop) (c : Prop) [Decidable c] (A B : List α)
    (ha : ∀ l ∈ A, P l) (hb : ∀ l ∈ B, P l) : ∀ l ∈ (if c then A else B), P l := by
  split
  · exact ha
  · exact hb

theorem mtmLoop_lines_clean (env : JsEnv) (msgs : List ExtractedMessage) :
    ∀ (acc : List String) (lastA lastD : String),
      (∀ l ∈ acc, '<' ∉ l.data) →
      (∀ m ∈ msgs, '<' ∉ m.author.data ∧ '<' ∉ m.timestamp.data ∧
        '<' ∉ (env.htmlToText m.contentHtml).data ∧ '<' ∉ (env.fmtDate m.timestamp).data) →
      ∀ l ∈ mtmLoop env msgs lastA lastD acc, '<' ∉ l.data := by
  induction msgs with
  | nil =>
    intro acc lastA lastD hacc _ l hl
    exact hacc l hl
  | cons m rest ih =>
    intro acc lastA lastD hacc hmsgs l hl
    obtain ⟨hA, hT, hC, hF⟩ := hmsgs m (List.mem_cons_self m rest)
    have hrest : ∀ m2 ∈ rest, '<' ∉ m2.author.data ∧ '<' ∉ m2.timestamp.data ∧
        '<' ∉ (env.htmlToText m2.contentHtml).data ∧ '<' ∉ (env.fmtDate m2.timestamp).data :=
      fun m2 hm2 => hmsgs m2 (List.mem_cons_of_mem m hm2)
    rw [mtmLoop] at hl
    refine ih _ _ _ ?_ hrest l hl
    have hsepline : ∀ l2 ∈ (["", "---", ""] : List String), '<' ∉ l2.data := by decide
    have hsep : ∀ l2 ∈ (if lastD ≠ "" then acc ++ ["", "---", ""] else acc), '<' ∉ l2.data :=
      forall_mem_ite_of _ _ _ _ (forall_mem_append_of _ _ _ hacc hsepline) hacc
    have hhead : ∀ l2 ∈ ["## " ++ env.fmtDate m.timestamp, ""], '<' ∉ l2.data := by
      intro l2 hl2
      rcases List.mem_cons.mp hl2 with he | hm2
      · rw [he, String.data_append]
        intro hmem
        rcases List.mem_append.mp hmem with h | h
        · simp at h
        · exact hF h
      · have : l2 = "" := by simpa using hm2
        rw [this]; simp
    have hlines1 : ∀ l2 ∈ (if env.dayKey m.timestamp ≠ lastD then
        (if lastD ≠ "" then acc ++ ["", "---", ""] else acc) ++
          ["## " ++ env.fmtDate m.timestamp, ""] else acc), '<' ∉ l2.data :=
      forall_mem_ite_of _ _ _ _ (forall_mem_append_of _ _ _ hsep hhead) hacc
    have hbold : ∀ l2 ∈ ["**" ++ m.author ++ "** [" ++ m.timestamp ++ "]:"], '<' ∉ l2.data := by
      intro l2 hl2
      have : l2 = "**" ++ m.author ++ "** [" ++ m.timestamp ++ "]:" := by simpa using hl2
      rw [this]
      simp only [String.data_append]
      intro hmem
      rcases List.mem_append.mp hmem with h | h
      · rcases List.mem_append.mp h with h | h
        · rcases List.mem_append.mp h with h | h
          · rcases List.mem_append.mp h with h | h
            · simp at h
            · exact hA h
          · simp at h
        · exact hT h
      · simp at h
    have hcont : ∀ l2 ∈ ["*[" ++ m.timestamp ++ "]:*"], '<' ∉ l2.data := by
      intro l2 hl2
      have : l2 = "*[" ++ m.timestamp ++ "]:*" := by simpa using hl2
      rw [this]
      simp only [String.data_append]
      intro hmem
      rcases List.mem_append.mp hmem with h | h
      · rcases List.mem_append.mp h with h | h
        · simp at h
        · exact hT h
      · simp at h
    have hcontent : ∀ l2 ∈ (splitNlL (env.htmlToText m.contentHtml).data).map String.mk,
        '<' ∉ l2.data := by
      intro l2 hl2
      obtain ⟨piece, hpiece, hpe⟩ := List.mem_map.mp hl2
      rw [← hpe]
      intro hcm
      exact hC (mem_splitNlL _ piece hpiece '<' hcm)
    have hempty : ∀ l2 ∈ ([""] : List String), '<' ∉ l2.data := by decide
    exact forall_mem_append_of _ _ _
      (forall_mem_append_of _ _ _
        (forall_mem_ite_of _ _ _ _
          (forall_mem_append_of _ _ _ hlines1 hbold)
          (forall_mem_append_of _ _ _ hlines1 hcont))
        hcontent)
      hempty

theorem markdown_clean (env : JsEnv) (msgs : List ExtractedMessage)
    (h : ∀ m ∈ msgs, '<' ∉ m.author.data ∧ '<' ∉ m.timestamp.data ∧
      '<' ∉ (env.htmlToText m.contentHtml).data ∧ '<' ∉ (env.fmtDate m.timestamp).data) :
    '<' ∉ (messagesToMarkdown env msgs).data := by
  unfold messagesToMarkdown
  split
  · simp
  · intro hc
    rcases mem_joinNl _ '<' hc with he | ⟨l, hl, hcl⟩
    · exact absurd he (by decide)
    · exact mtmLoop_lines_clean env msgs [] "" "" (by simp) h l hl hcl

theorem mem_stripTrailing (cs : List Char) : ∀ c ∈ stripTrailingMarkerL cs, c ∈ cs := by
  induction cs with
  | nil => intro c hc; simp [stripTrailingMarkerL] at hc
  | cons a rest ih =>
    intro c hc
    unfold stripTrailingMarkerL at hc
    split at hc
    · exact absurd hc (List.not_mem_nil c)
    · rcases List.mem_cons.mp hc with he | hm
      · rw [he]; exact List.mem_cons_self a rest
      · exact List.mem_cons_of_mem a (ih c hm)

theorem mem_trimEndL (cs : List Char) : ∀ c ∈ trimEndL cs, c ∈ cs := by
  intro c hc
  unfold trimEndL at hc
  rw [List.mem_reverse] at hc
  have := (List.dropWhile_sublist (l := cs.reverse) (p := jsIsSpace)).mem hc
  rwa [List.mem_reverse] at this

theorem getLast?_filter {α : Type} (p : α → Bool) (l : List α) (v : α)
    (hv : l.getLast? = some v) (hp : p v = true) :
    (l.filter p).getLast? = some v := by
  induction l with
  | nil => exact absurd hv (by simp)
  | cons x t ih =>
    cases t with
    | nil =>
      have hx : x = v := by simpa using hv
      subst hx
      simp [List.filter, hp]
    | cons y t2 =>
      have hv2 : (y :: t2).getLast? = some v := by
        rwa [List.getLast?_cons_cons] at hv
      have ihv := ih hv2
      rw [show (x :: y :: t2).filter p = if p x then x :: (y :: t2).filter p
          else (y :: t2).filter p from by simp [List.filter_cons]]
      split
      · have hne : (y :: t2).filter p ≠ [] := by
          intro he
          rw [he] at ihv
          simp at ihv
        cases hf : (y :: t2).filter p with
        | nil => exact absurd hf hne
        | cons z zs =>
          rw [hf] at ihv
          rw [List.getLast?_cons_cons]
          exact ihv
      · exact ihv

/-! Helper lemmas characterizing `saveChat`. -/

theorem saveChat_nochange (env : JsEnv) (chatName now : String)
    (messages : List ExtractedMessage) (file : Option String)
    (h : newMessagesOf env messages file = []) :
    saveChat env chatName messages file now = (0, file) := by
  unfold newMessagesOf at h
  unfold saveChat
  cases hc : (getLatestTimestampStr file).map env.dateOf with
  | none =>
    rw [hc] at h
    simp only [] at h
    subst h
    simp
  | some c =>
    rw [hc] at h
    simp only [] at h
    simp [h]

theorem jsGtOpt_true_elim (a b : Option Int) (h : jsGtOpt a b = true) :
    ∃ x y, a = some x ∧ b = some y ∧ y < x := by
  cases a with
  | none => exact absurd h (by simp [jsGtOpt])
  | some x =>
    cases b with
    | none => exact absurd h (by simp [jsGtOpt])
    | some y =>
      refine ⟨x, y, rfl, rfl, ?_⟩
      simpa [jsGtOpt] using h

theorem saveChat_written (env : JsEnv) (chatName now : String)
    (messages : List ExtractedMessage) (file : Option String)
    (lastM : ExtractedMessage) (L : Int)
    (hLast : messages.getLast? = some lastM)
    (hL : env.dateOf lastM.timestamp = some L)
    (hIso : isoShapeL lastM.timestamp.data = true)
    (hMax : ∀ m ∈ messages, jsGtOpt (env.dateOf m.timestamp) (some L) = false)
    (hClean : ∀ m ∈ messages, '<' ∉ m.author.data ∧ '<' ∉ m.timestamp.data ∧
      '<' ∉ (env.htmlToText m.contentHtml).data ∧ '<' ∉ (env.fmtDate m.timestamp).data)
    (hName : '<' ∉ chatName.data) (hNow : '<' ∉ now.data)
    (hFile : FileOk file)
    (hne : newMessagesOf env messages file ≠ []) :
    (saveChat env chatName messages file now).1 = (newMessagesOf env messages file).length ∧
    getLatestTimestampStr (saveChat env chatName messages file now).2 = some lastM.timestamp ∧
    (∀ y, (getLatestTimestampStr file).map env.dateOf = some (some y) → y < L) := by
  have hmdclean : ∀ (sub : List ExtractedMessage), (∀ m ∈ sub, m ∈ messages) →
      '<' ∉ (messagesToMarkdown env sub).data := by
    intro sub hsub
    exact markdown_clean env sub (fun m hm => hClean m (hsub m hm))
  cases hcap : getLatestTimestampStr file with
  | none =>
    have hnm : newMessagesOf env messages file = messages := by
      unfold newMessagesOf
      rw [hcap]
      rfl
    rw [hnm] at hne
    have hlastEq : ∀ (h2 : messages ≠ []), messages.getLast h2 = lastM := by
      intro h2
      have he := List.getLast?_eq_getLast messages h2
      rw [he] at hLast
      exact Option.some.inj hLast
    have hpre : '<' ∉ ("# " ++ chatName ++ "\n\nExported: " ++ now ++ "\n\n" ++
        messagesToMarkdown env messages ++ "\n").data := by
      intro hc
      simp only [String.data_append, List.mem_append] at hc
      rcases hc with ((((((h | h) | h) | h) | h) | h) | h)
      · simp at h
      · exact hName h
      · simp at h
      · exact hNow h
      · simp at h
      · exact hmdclean messages (fun m hm => hm) h
      · simp at h
    have hmain : saveChat env chatName messages file now =
        (messages.length,
         some ("# " ++ chatName ++ "\n\nExported: " ++ now ++ "\n\n" ++
           messagesToMarkdown env messages ++ "\n" ++
           markerString lastM.timestamp ++ "\n")) := by
      unfold saveChat
      rw [hcap]
      rw [show Option.map env.dateOf (none : Option String) = none from rfl]
      simp only []
      rw [dif_neg hne]
      cases file with
      | none => simp [hlastEq hne, markerString]
      | some e => simp [hlastEq hne, markerString]
    rw [hmain, hnm]
    refine ⟨rfl, ?_, ?_⟩
    · exact getLatest_constructed _ _ hpre hIso
    · intro y hy
      exact absurd hy (by simp)
  | some cap =>
    cases file with
    | none => exact absurd hcap (by simp [getLatestTimestampStr])
    | some e =>
      have hfind : findMarkerCapture e.data = some cap.data := by
        unfold getLatestTimestampStr at hcap
        rw [Option.some_bind] at hcap
        cases hf : findMarkerCapture e.data with
        | none => rw [hf] at hcap; exact absurd hcap (by simp)
        | some l =>
          rw [hf] at hcap
          have hlc : String.mk l = cap := by simpa using hcap
          rw [← hlc]
      have hnm : newMessagesOf env messages (some e) =
          messages.filter (fun m => jsGtOpt (env.dateOf m.timestamp) (env.dateOf cap)) := by
        unfold newMessagesOf
        rw [hcap]
        rfl
      rw [hnm] at hne
      obtain ⟨m0, hm0⟩ := List.exists_mem_of_ne_nil _ hne
      obtain ⟨hm0mem, hm0p⟩ := List.mem_filter.mp hm0
      obtain ⟨x, y, hx, hy, hyx⟩ := jsGtOpt_true_elim _ _ hm0p
      have hxL : x ≤ L := by
        have hq := hMax m0 hm0mem
        rw [hx] at hq
        simpa [jsGtOpt] using hq
      have hyL : y < L := lt_of_lt_of_le hyx hxL
      have hplast : jsGtOpt (env.dateOf lastM.timestamp) (env.dateOf cap) = true := by
        rw [hL, hy]
        simp [jsGtOpt, hyL]
      have hlastF : (messages.filter
          (fun m => jsGtOpt (env.dateOf m.timestamp) (env.dateOf cap))).getLast? = some lastM :=
        getLast?_filter _ _ _ hLast hplast
      have hlastEq : ∀ (h2 : messages.filter
          (fun m => jsGtOpt (env.dateOf m.timestamp) (env.dateOf cap)) ≠ []),
          (messages.filter (fun m => jsGtOpt (env.dateOf m.timestamp) (env.dateOf cap))).getLast h2
            = lastM := by
        intro h2
        have he := List.getLast?_eq_getLast _ h2
        rw [he] at hlastF
        exact Option.some.inj hlastF
      have hstrip : '<' ∉ stripTrailingMarkerL e.data := by
        simp only [FileOk, hfind] at hFile
        exact hFile
      have hpre : '<' ∉ (String.mk (trimEndL (stripTrailingMarkerL e.data)) ++ "\n\n---\n\n" ++
          "### Export appended: " ++ now ++ "\n\n" ++
          messagesToMarkdown env (messages.filter
            (fun m => jsGtOpt (env.dateOf m.timestamp) (env.dateOf cap))) ++ "\n").data := by
        intro hc
        simp only [String.data_append, List.mem_append] at hc
        rcases hc with ((((((h | h) | h) | h) | h) | h) | h)
        · exact hstrip (mem_trimEndL _ '<' h)
        · simp at h
        · simp at h
        · exact hNow h
        · simp at h
        · exact hmdclean _ (fun m hm => (List.mem_filter.mp hm).1) h
        · simp at h
      have hmain : saveChat env chatName messages (some e) now =
          ((messages.filter (fun m => jsGtOpt (env.dateOf m.timestamp) (env.dateOf cap))).length,
           some (String.mk (trimEndL (stripTrailingMarkerL e.data)) ++ "\n\n---\n\n" ++
             "### Export appended: " ++ now ++ "\n\n" ++
             messagesToMarkdown env (messages.filter
               (fun m => jsGtOpt (env.dateOf m.timestamp) (env.dateOf cap))) ++ "\n" ++
             markerString lastM.timestamp ++ "\n")) := by
        unfold saveChat
        rw [hcap]
        rw [show Option.map env.dateOf (some cap) = some (env.dateOf cap) from rfl]
        simp only []
        rw [dif_neg hne]
        simp [hlastEq, markerString]
      rw [hmain, hnm]
      refine ⟨rfl, ?_, ?_⟩
      · exact getLatest_constructed _ _ hpre hIso
      · intro y2 hy2
        have : env.dateOf cap = some y2 := by simpa using hy2
        rw [hy] at this
        rw [← Option.some.inj this]
        exact hyL

theorem mem_newMessagesOf (env : JsEnv) (messages : List ExtractedMessage)
    (file : Option String) (m : ExtractedMessage)
    (hm : m ∈ newMessagesOf env messages file) : m ∈ messages := by
  unfold newMessagesOf at hm
  cases hc : (getLatestTimestampStr file).map env.dateOf with
  | none => rw [hc] at hm; exact hm
  | some c =>
    rw [hc] at hm
    exact (List.mem_filter.mp hm).1

/-- C2 (amended): `saveChat` filters the batch to messages whose
timestamp is strictly greater than the archive's cursor and returns 0
without mutating the file when none remain (first conjunct, exactly as
claimed); and calling `saveChat` twice with the same batch returns 0 on
the second call and leaves the file unchanged, provided the batch's final
message carries its maximal timestamp (true of timestamp-ascending
batches), its timestamp is a parseable ISO instant, and chat name, export
time, and rendered values are free of `<` (so no spurious cursor marker
can arise).  Without the final-message-is-maximal proviso idempotence
fails — see the counterexample. -/
theorem merge_filter_and_idempotent (env : JsEnv) (chatName now1 now2 : String)
    (messages : List ExtractedMessage) (file : Option String)
    (lastM : ExtractedMessage) (L : Int)
    (hLast : messages.getLast? = some lastM)
    (hL : env.dateOf lastM.timestamp = some L)
    (hIso : isoShapeL lastM.timestamp.data = true)
    (hMax : ∀ m ∈ messages, jsGtOpt (env.dateOf m.timestamp) (some L) = false)
    (hClean : ∀ m ∈ messages, '<' ∉ m.author.data ∧ '<' ∉ m.timestamp.data ∧
      '<' ∉ (env.htmlToText m.contentHtml).data ∧ '<' ∉ (env.fmtDate m.timestamp).data)
    (hName : '<' ∉ chatName.data) (hNow : '<' ∉ now1.data)
    (hFile : FileOk file) :
    (∀ (msgs2 : List ExtractedMessage) (f2 : Option String) (c : Option Int),
        (getLatestTimestampStr f2).map env.dateOf = some c →
        msgs2.filter (fun m => jsGtOpt (env.dateOf m.timestamp) c) = [] →
        saveChat env chatName msgs2 f2 now1 = (0, f2)) ∧
    saveChat env chatName messages (saveChat env chatName messages file now1).2 now2 =
      (0, (saveChat env chatName messages file now1).2) := by
  constructor
  · intro msgs2 f2 c hc hf
    apply saveChat_nochange
    unfold newMessagesOf
    rw [hc]
    exact hf
  · by_cases hne : newMessagesOf env messages file = []
    · rw [saveChat_nochange env chatName now1 messages file hne]
      exact saveChat_nochange env chatName now2 messages file hne
    · obtain ⟨_, h2, _⟩ := saveChat_written env chatName now1 messages file lastM L
        hLast hL hIso hMax hClean hName hNow hFile hne
      apply saveChat_nochange
      unfold newMessagesOf
      rw [h2]
      rw [show Option.map env.dateOf (some lastM.timestamp) =
        some (env.dateOf lastM.timestamp) from rfl, hL]
      simp only []
      rw [List.filter_eq_nil_iff]
      intro m hm
      rw [hMax m hm]
      simp

/-- C1 (amended): for every merge via `saveChat` that writes at least one
message, the cursor recorded in the archive's trailing last-message
marker is the timestamp of the batch's final message; when the batch's
final message carries the maximal timestamp (true of timestamp-ascending
batches; hypothesis `hMax`), that cursor is the maximum timestamp over the
messages merged, and it is strictly later than the previous cursor — the
cursor never regresses.  For batches whose last element is not the
timestamp maximum the recorded cursor is not the maximum — see the
counterexample. -/
theorem cursor_max_of_merge (env : JsEnv) (chatName now : String)
    (messages : List ExtractedMessage) (file : Option String)
    (lastM : ExtractedMessage) (L : Int)
    (hLast : messages.getLast? = some lastM)
    (hL : env.dateOf lastM.timestamp = some L)
    (hIso : isoShapeL lastM.timestamp.data = true)
    (hMax : ∀ m ∈ messages, jsGtOpt (env.dateOf m.timestamp) (some L) = false)
    (hClean : ∀ m ∈ messages, '<' ∉ m.author.data ∧ '<' ∉ m.timestamp.data ∧
      '<' ∉ (env.htmlToText m.contentHtml).data ∧ '<' ∉ (env.fmtDate m.timestamp).data)
    (hName : '<' ∉ chatName.data) (hNow : '<' ∉ now.data)
    (hFile : FileOk file)
    (hW : (saveChat env chatName messages file now).1 ≠ 0) :
    getLatestTimestampStr (saveChat env chatName messages file now).2 =
      some lastM.timestamp ∧
    env.dateOf lastM.timestamp = some L ∧
    (∀ m ∈ newMessagesOf env messages file,
      jsGtOpt (env.dateOf m.timestamp) (some L) = false) ∧
    (∀ y, (getLatestTimestampStr file).map env.dateOf = some (some y) → y < L) := by
  have hne : newMessagesOf env messages file ≠ [] := by
    intro he
    rw [saveChat_nochange env chatName now messages file he] at hW
    exact hW rfl
  obtain ⟨_, h2, h3⟩ := saveChat_written env chatName now messages file lastM L
    hLast hL hIso hMax hClean hName hNow hFile hne
  exact ⟨h2, hL, fun m hm => hMax m (mem_newMessagesOf env messages file m hm), h3⟩


/-! Helper lemmas about the dedup pass. -/

theorem dedupAux_acc_subset (ns : List RawNode) : ∀ (acc : List (Option Int × RawNode)),
    acc ⊆ dedupAux ns acc := by
  induction ns with
  | nil => exact fun acc p hp => hp
  | cons n rest ih =>
    intro acc p hp
    unfold dedupAux
    cases hb : n.bodyId with
    | none => exact ih acc hp
    | some s =>
      cases hg : n.gif with
      | true => exact ih acc hp
      | false =>
        cases hf : (acc.find? (fun q => q.1 == nodeKey s)).isSome with
        | true => simp only [hf]; exact ih acc hp
        | false =>
          simp only [hf]
          exact ih (acc ++ [(nodeKey s, n)]) (List.mem_append_left _ hp)

theorem dedupAux_forward (ns : List RawNode) : ∀ (acc : List (Option Int × RawNode)),
    ∀ p ∈ dedupAux ns acc,
      p ∈ acc ∨
        ((acc.find? (fun q => q.1 == p.1)).isSome = false ∧
         keepNodeKey p.2 = some p.1 ∧
         ns.find? (fun n => keepNodeKey n == some p.1) = some p.2) := by
  induction ns with
  | nil => exact fun acc p hp => Or.inl hp
  | cons n rest ih =>
    intro acc p hp
    unfold dedupAux at hp
    cases hb : n.bodyId with
    | none =>
      rw [hb] at hp
      rcases ih acc p hp with h | ⟨h1, h2, h3⟩
      · exact Or.inl h
      · refine Or.inr ⟨h1, h2, ?_⟩
        rw [List.find?_cons_of_neg, h3]
        simp [keepNodeKey, hb]
    | some s =>
      rw [hb] at hp
      cases hg : n.gif with
      | true =>
        rw [hg] at hp; simp only [if_true] at hp
        rcases ih acc p hp with h | ⟨h1, h2, h3⟩
        · exact Or.inl h
        · refine Or.inr ⟨h1, h2, ?_⟩
          rw [List.find?_cons_of_neg, h3]
          simp [keepNodeKey, hb, hg]
      | false =>
        rw [hg] at hp; simp only [Bool.false_eq_true, if_false] at hp
        have hkn : keepNodeKey n = some (nodeKey s) := by simp [keepNodeKey, hb, hg]
        cases hf : (acc.find? (fun q => q.1 == nodeKey s)).isSome with
        | true =>
          rw [hf] at hp; simp only [if_true] at hp
          rcases ih acc p hp with h | ⟨h1, h2, h3⟩
          · exact Or.inl h
          · refine Or.inr ⟨h1, h2, ?_⟩
            have hne : nodeKey s ≠ p.1 := by
              intro he
              rw [← he] at h1
              rw [h1] at hf
              exact Bool.noConfusion hf
            rw [List.find?_cons_of_neg, h3]
            simp [hkn, hne]
        | false =>
          rw [hf] at hp; simp only [Bool.false_eq_true, if_false] at hp
          rcases ih (acc ++ [(nodeKey s, n)]) p hp with h | ⟨h1, h2, h3⟩
          · rcases List.mem_append.mp h with h | h
            · exact Or.inl h
            · have hpn : p = (nodeKey s, n) := by simpa using h
              subst hpn
              refine Or.inr ⟨hf, hkn, ?_⟩
              rw [List.find?_cons_of_pos]
              simp [hkn]
          · have hne : (nodeKey s == p.1) = false := by
              by_contra hcon
              have : (nodeKey s == p.1) = true := by
                cases hx : (nodeKey s == p.1) with
                | true => rfl
                | false => exact absurd hx hcon
              have hq : ((acc ++ [(nodeKey s, n)]).find? (fun q => q.1 == p.1)).isSome = true := by
                rw [List.find?_isSome]
                exact ⟨(nodeKey s, n), List.mem_append_right _ (by simp), this⟩
              rw [h1] at hq
              exact Bool.noConfusion hq
            have hacc : (acc.find? (fun q => q.1 == p.1)).isSome = false := by
              cases hx : (acc.find? (fun q => q.1 == p.1)).isSome with
              | false => rfl
              | true =>
                have hq : ((acc ++ [(nodeKey s, n)]).find? (fun q => q.1 == p.1)).isSome = true := by
                  rw [List.find?_isSome] at hx ⊢
                  obtain ⟨x, hx1, hx2⟩ := hx
                  exact ⟨x, List.mem_append_left _ hx1, hx2⟩
                rw [h1] at hq
                exact Bool.noConfusion hq
            refine Or.inr ⟨hacc, h2, ?_⟩
            rw [List.find?_cons_of_neg, h3]
            simp [hkn, hne]

theorem dedupAux_complete (ns : List RawNode) : ∀ (acc : List (Option Int × RawNode)),
    ∀ n ∈ ns, ∀ k, keepNodeKey n = some k →
      ∃ p ∈ dedupAux ns acc, p.1 = k := by
  induction ns with
  | nil => intro acc n hn; exact absurd hn (List.not_mem_nil n)
  | cons m rest ih =>
    intro acc n hn k hk
    rcases List.mem_cons.mp hn with he | hmem
    · subst he
      unfold dedupAux
      cases hb : n.bodyId with
      | none => rw [keepNodeKey, hb] at hk; exact Option.noConfusion hk
      | some s =>
        cases hg : n.gif with
        | true =>
          rw [keepNodeKey, hb, hg] at hk
          exact Option.noConfusion hk
        | false =>
          have hks : k = nodeKey s := by
            rw [keepNodeKey, hb, hg] at hk
            simpa using hk.symm
          subst hks
          cases hf : (acc.find? (fun q => q.1 == nodeKey s)).isSome with
          | true =>
            simp only [hf]
            obtain ⟨q, hq1, hq2⟩ := List.find?_isSome.mp hf
            exact ⟨q, dedupAux_acc_subset rest acc hq1, by simpa using hq2⟩
          | false =>
            simp only [hf]
            exact ⟨(nodeKey s, n),
              dedupAux_acc_subset rest _ (List.mem_append_right _ (by simp)), rfl⟩
    · unfold dedupAux
      cases hb : m.bodyId with
      | none => exact ih acc n hmem k hk
      | some s =>
        cases hg : m.gif with
        | true => exact ih acc n hmem k hk
        | false =>
          cases hf : (acc.find? (fun q => q.1 == nodeKey s)).isSome with
          | true => simp only [hf]; exact ih acc n hmem k hk
          | false => simp only [hf]; exact ih _ n hmem k hk

theorem dedupAux_keys_nodup (ns : List RawNode) : ∀ (acc : List (Option Int × RawNode)),
    (acc.map Prod.fst).Nodup → ((dedupAux ns acc).map Prod.fst).Nodup := by
  induction ns with
  | nil => exact fun acc h => h
  | cons n rest ih =>
    intro acc hacc
    unfold dedupAux
    cases hb : n.bodyId with
    | none => exact ih acc hacc
    | some s =>
      cases hg : n.gif with
      | true => exact ih acc hacc
      | false =>
        cases hf : (acc.find? (fun q => q.1 == nodeKey s)).isSome with
        | true => simp only [hf]; exact ih acc hacc
        | false =>
          simp only [hf]
          refine ih _ ?_
          rw [List.map_append]
          rw [List.nodup_append]
          refine ⟨hacc, by simp, ?_⟩
          intro a ha hb2
          have : a = nodeKey s := by simpa using hb2
          subst this
          obtain ⟨q, hq, hqe⟩ := List.mem_map.mp ha
          have : (acc.find? (fun p => p.1 == nodeKey s)).isSome = true := by
            rw [List.find?_isSome]
            exact ⟨q, hq, by simp [hqe]⟩
          rw [hf] at this
          exact Bool.noConfusion this

/-! Helper lemmas about the retention analyzer. -/

theorem analyzeRetention_nil (fmtDE : Int → String) (now : Int)
    (files : List (String × String))
    (hs : (chatRangesOf now files).insertionSort (fun a b => b.ageDays ≤ a.ageDays) = []) :
    (analyzeRetention fmtDE now files).chatRanges = [] := by
  unfold analyzeRetention
  rw [hs]

theorem analyzeRetention_cons (fmtDE : Int → String) (now : Int)
    (files : List (String × String)) (first : ChatDateRange) (restR : List ChatDateRange)
    (hs : (chatRangesOf now files).insertionSort (fun a b => b.ageDays ≤ a.ageDays) =
      first :: restR) :
    (analyzeRetention fmtDE now files).chatRanges = first :: restR ∧
    (analyzeRetention fmtDE now files).maxOldestAgeDays = first.ageDays ∧
    (analyzeRetention fmtDE now files).explanation =
      (if 3 ≤ ((first :: restR).filter (fun c => first.ageDays - 14 ≤ c.ageDays)).length then
        clusterExplanation
          ((first :: restR).filter (fun c => first.ageDays - 14 ≤ c.ageDays)).length
          (fmtDE ((((first :: restR).filter
            (fun c => first.ageDays - 14 ≤ c.ageDays)).headD first).oldest))
          first.ageDays
      else genericExplanation first.ageDays) := by
  unfold analyzeRetention
  rw [hs]
  simp

set_option maxRecDepth 4000 in
theorem clusterExplanation_decomp (l : Nat) (d : String) (m : Int) :
    ∃ pre post, clusterExplanation l d m = pre ++ "cluster" ++ post := by
  refine ⟨toString l ++ " chats ",
    " around " ++ d ++ " (~" ++ toString m ++ " days ago), " ++
      "suggesting this is your account start date or the Teams sidebar visibility window. " ++
      "Teams hides inactive chats from the sidebar — older conversations may exist " ++
      "but weren\x27t exported because they weren\x27t visible. " ++
      "To find hidden chats: search for a contact name in Teams, then re-export.", ?_⟩
  unfold clusterExplanation
  apply String.ext
  simp [String.data_append]

/-! Remaining shared helpers. -/

theorem extractLoop_eq_filterMap (l : List RawNode) :
    extractLoop l = l.filterMap extractOne := by
  induction l with
  | nil => rfl
  | cons n rest ih =>
    unfold extractLoop
    cases h : extractOne n <;> simp [List.filterMap_cons, h, ih]

/-! The claims. -/

set_option maxRecDepth 8000 in
/-- C1, counterexample: merging the batch `[later, earlier]` (descending
timestamps) into an empty archive records the EARLIER timestamp in the
trailing cursor marker, while a merged message (`msgLater`) has a
strictly greater timestamp — so the cursor is not the maximum timestamp
over the messages merged, refuting the claim as stated. -/
theorem cursor_not_max_counterexample :
    getLatestTimestampStr (saveChat envIso "Chat" msgsUnsorted none
        "2025-06-20T00:00:00.000Z").2 = some "2025-01-01T00:00:00Z" ∧
    msgLater ∈ msgsUnsorted ∧
    jsGtOpt (envIso.dateOf msgLater.timestamp) (envIso.dateOf "2025-01-01T00:00:00Z") = true :=
  ⟨by decide, by decide, by decide⟩

set_option maxRecDepth 8000 in
theorem cursor_max_of_merge_witness :
    getLatestTimestampStr (saveChat envIso "Chat" msgsAscending none
        "2025-06-20T00:00:00.000Z").2 = some "2025-01-02T00:00:00Z" ∧
    envIso.dateOf "2025-01-02T00:00:00Z" = some 1735776000000 ∧
    (∀ m ∈ newMessagesOf envIso msgsAscending none,
      jsGtOpt (envIso.dateOf m.timestamp) (some 1735776000000) = false) ∧
    (∀ y, (getLatestTimestampStr none).map envIso.dateOf = some (some y) →
      y < 1735776000000) :=
  cursor_max_of_merge envIso "Chat" "2025-06-20T00:00:00.000Z" msgsAscending none
    msgLater 1735776000000 (by decide) (by decide) (by decide) (by decide) (by decide)
    (by decide) (by decide) trivial (by decide)

set_option maxRecDepth 8000 in
/-- C2, counterexample: with the batch `[later, earlier]` the first call
writes both messages and records the earlier timestamp as cursor, so the
second call with the very same batch writes the later message again and
returns 1, not 0 — idempotence fails for batches whose last message is
not the timestamp maximum. -/
theorem merge_not_idempotent_counterexample :
    (saveChat envIso "Chat" msgsUnsorted
      (saveChat envIso "Chat" msgsUnsorted none "2025-06-20T00:00:00.000Z").2
      "2025-06-21T00:00:00.000Z").1 = 1 := by decide

set_option maxRecDepth 8000 in
theorem merge_filter_and_idempotent_witness :
    saveChat envIso "Chat" msgsAscending
        (saveChat envIso "Chat" msgsAscending none "2025-06-20T00:00:00.000Z").2
        "2025-06-21T00:00:00.000Z" =
      (0, (saveChat envIso "Chat" msgsAscending none "2025-06-20T00:00:00.000Z").2) :=
  (merge_filter_and_idempotent envIso "Chat" "2025-06-20T00:00:00.000Z"
    "2025-06-21T00:00:00.000Z" msgsAscending none msgLater 1735776000000
    (by decide) (by decide) (by decide) (by decide) (by decide) (by decide) (by decide)
    trivial).2

/-- C3: for every multiset of raw collected nodes whose kept nodes carry
parseable numeric ids, the dedup/sequencing step yields entries with
strictly ascending ids (each id exactly once), every entry is free of the
animated-GIF placeholder, every entry's node is the FIRST collected node
with that id among the kept nodes (first occurrence wins, later
duplicates discarded), and every kept input node's id occurs in the
output. -/
theorem sequence_dedup_sorted (collected : List RawNode)
    (hIds : ∀ n ∈ collected, ∀ s, n.bodyId = some s → n.gif = false →
      (nodeKey s).isSome = true) :
    List.Pairwise (fun a b => keyVal a.1 < keyVal b.1) (sortEntries (dedupNodes collected)) ∧
    (∀ p ∈ sortEntries (dedupNodes collected),
      p.2.gif = false ∧
      collected.find? (fun n => keepNodeKey n == some p.1) = some p.2) ∧
    (∀ n ∈ collected, ∀ s, n.bodyId = some s → n.gif = false →
      ∃ p ∈ sortEntries (dedupNodes collected), p.1 = nodeKey s) := by
  have hperm : (sortEntries (dedupNodes collected)).Perm (dedupNodes collected) :=
    List.perm_insertionSort _ _
  have hmid : ∀ p ∈ sortEntries (dedupNodes collected),
      keepNodeKey p.2 = some p.1 ∧
      collected.find? (fun n => keepNodeKey n == some p.1) = some p.2 := by
    intro p hp
    have hd : p ∈ dedupNodes collected := hperm.mem_iff.mp hp
    rcases dedupAux_forward collected [] p hd with h | ⟨_, h2, h3⟩
    · exact absurd h (List.not_mem_nil p)
    · exact ⟨h2, h3⟩
  have hgif : ∀ p ∈ sortEntries (dedupNodes collected), p.2.gif = false := by
    intro p hp
    obtain ⟨h2, _⟩ := hmid p hp
    rw [keepNodeKey] at h2
    cases hb : p.2.bodyId with
    | none => rw [hb] at h2; exact Option.noConfusion h2
    | some s =>
      rw [hb] at h2
      cases hg : p.2.gif with
      | false => rfl
      | true => rw [hg] at h2; exact Option.noConfusion h2
  have hkeys : ∀ p ∈ sortEntries (dedupNodes collected), p.1.isSome = true := by
    intro p hp
    obtain ⟨h2, h3⟩ := hmid p hp
    have hmem : p.2 ∈ collected := List.mem_of_find?_eq_some h3
    rw [keepNodeKey] at h2
    cases hb : p.2.bodyId with
    | none => rw [hb] at h2; exact Option.noConfusion h2
    | some s =>
      rw [hb] at h2
      cases hg : p.2.gif with
      | true => rw [hg] at h2; exact Option.noConfusion h2
      | false =>
        rw [hg] at h2
        simp only [Bool.false_eq_true, if_false, Option.some.injEq] at h2
        rw [← h2]
        exact hIds p.2 hmem s hb hg
  have hsorted : List.Pairwise (fun a b : Option Int × RawNode => keyVal a.1 ≤ keyVal b.1)
      (sortEntries (dedupNodes collected)) := by
    haveI : IsTotal (Option Int × RawNode) (fun a b => keyVal a.1 ≤ keyVal b.1) :=
      ⟨fun a b => Int.le_total _ _⟩
    haveI : IsTrans (Option Int × RawNode) (fun a b => keyVal a.1 ≤ keyVal b.1) :=
      ⟨fun a b c => Int.le_trans⟩
    exact List.sorted_insertionSort _ _
  have hnd : ((sortEntries (dedupNodes collected)).map Prod.fst).Nodup := by
    have h1 : ((dedupNodes collected).map Prod.fst).Nodup :=
      dedupAux_keys_nodup collected [] (by simp)
    exact ((hperm.map Prod.fst).nodup_iff).mpr h1
  have hnd2 : List.Pairwise (fun a b : Option Int × RawNode => a.1 ≠ b.1)
      (sortEntries (dedupNodes collected)) := by
    rw [List.Nodup, List.pairwise_map] at hnd
    exact hnd
  refine ⟨?_, fun p hp => ⟨hgif p hp, (hmid p hp).2⟩, ?_⟩
  · refine List.Pairwise.imp_of_mem ?_ (hsorted.and hnd2)
    intro a b ha hb h
    obtain ⟨hle, hne⟩ := h
    have hsa := hkeys a ha
    have hsb := hkeys b hb
    cases ka : a.1 with
    | none => rw [ka] at hsa; exact Bool.noConfusion hsa
    | some x =>
      cases kb : b.1 with
      | none => rw [kb] at hsb; exact Bool.noConfusion hsb
      | some y =>
        rw [ka, kb] at hle hne
        have hxy : x ≠ y := fun he => hne (by rw [he])
        simp only [keyVal] at hle ⊢
        omega
  · intro n hn s hb hg
    have hk : keepNodeKey n = some (nodeKey s) := by simp [keepNodeKey, hb, hg]
    obtain ⟨p, hp, hpk⟩ := dedupAux_complete collected [] n hn (nodeKey s) hk
    exact ⟨p, hperm.mem_iff.mpr hp, hpk⟩

set_option maxRecDepth 2000 in
theorem sequence_dedup_sorted_witness :
    List.Pairwise (fun a b => keyVal a.1 < keyVal b.1)
      (sortEntries (dedupNodes [rawFirst, rawDupOfFirst, rawGif, rawSmallId])) ∧
    (∀ p ∈ sortEntries (dedupNodes [rawFirst, rawDupOfFirst, rawGif, rawSmallId]),
      p.2.gif = false ∧
      ([rawFirst, rawDupOfFirst, rawGif, rawSmallId].find?
        (fun n => keepNodeKey n == some p.1)) = some p.2) ∧
    (∀ n ∈ [rawFirst, rawDupOfFirst, rawGif, rawSmallId], ∀ s, n.bodyId = some s →
      n.gif = false →
      ∃ p ∈ sortEntries (dedupNodes [rawFirst, rawDupOfFirst, rawGif, rawSmallId]),
        p.1 = nodeKey s) :=
  sequence_dedup_sorted [rawFirst, rawDupOfFirst, rawGif, rawSmallId] (by decide)

/-- C4 (amended): only the downward operating direction has a hard
iteration ceiling — its `for (step = 0; step < 5000; …)` loop executes at
most 5000 cycles no matter how the host view behaves.  The upward
direction's `while (true)` loop has no such ceiling and need not
terminate when the observable oldest timestamp changes every cycle — see
the counterexample. -/
theorem down_loop_ceiling : ∀ countAt botAt, downCycles countAt botAt ≤ 5000 := by
  have aux : ∀ (fuel i : Nat) (s : DownState) (c : Nat → Nat) (b : Nat → Bool),
      downRun c b fuel i s ≤ fuel := by
    intro fuel
    induction fuel with
    | zero => intro i s c b; simp [downRun]
    | succ f ih =>
      intro i s c b
      unfold downRun
      cases h : downStep (c i) (b i) s with
      | none => simp
      | some s2 =>
        have := ih (i + 1) s2 c b
        simp only []
        omega
  intro c b
  exact aux 5000 0 ⟨0, 0⟩ c b

/-- C4, counterexample: against a host view whose oldest observable
timestamp strictly decreases on every cycle and with no cutoff
configured, the upward scroll loop never breaks — there is no iteration
ceiling bounding its cycle count, refuting the claim for the upward
direction. -/
theorem up_loop_unbounded_counterexample : ¬ upHalts everChangingOldest none := by
  have inv : ∀ k, upIter everChangingOldest none k =
      some ⟨0, if k = 0 then none else some (-(k : Int))⟩ := by
    intro k
    induction k with
    | zero => rfl
    | succ k ih =>
      rw [upIter, ih]
      show upStep none (everChangingOldest (k + 1)) _ = _
      unfold upStep everChangingOldest
      cases k with
      | zero => simp
      | succ j =>
        have hne : -((j + 1 + 1 : Nat) : Int) ≠ -((j + 1 : Nat) : Int) := by
          simp
        simp [hne]
  intro h
  obtain ⟨n, hn⟩ := h
  rw [inv n] at hn
  exact Option.noConfusion hn

set_option maxRecDepth 8000 in
/-- C5: the analyzer's date-range extraction tries ONLY the legacy locale
(`DD.MM.YYYY, HH:MM`) format: an archive whose embedded timestamps are in
the primary machine (ISO-8601) format — exactly what `saveChat` writes,
and what markdown.ts's own doc comment says retention analysis can
parse — yields no parsed range at all, while the legacy-format archive
parses.  This contradicts the claim (and the repo's own retention test
expecting ISO timestamps to parse): the code, not the spec, is wrong. -/
theorem iso_timestamps_unparsed_by_analyzer :
    extractDateRange isoArchive = none ∧
    extractDateRange legacyArchive = some (1749983400000, 1749985200000, 2) :=
  ⟨by decide, by decide⟩

/-- C6 (amended): the extraction pipeline returns the explicit failure
reason exactly when NO node remains after dedup, GIF-filtering and the
date trim; if nodes remain, each malformed node (missing author,
timestamp or content) is skipped individually — the messages are the
per-node extraction over the surviving nodes — and the result carries no
error even when every node is malformed and the message list is empty.
The claim's assertion that the all-malformed case is a failure with a
reason is refuted by the counterexample. -/
theorem pipeline_failure_vs_skip (env : JsEnv) (cutoff : Option Int)
    (collected : List RawNode) :
    (dateTrimNodes env cutoff (sequencedNodes collected) = [] →
      extractPipeline env cutoff collected =
        { messages := [], error := some "No messages could be extracted." }) ∧
    (dateTrimNodes env cutoff (sequencedNodes collected) ≠ [] →
      (extractPipeline env cutoff collected).error = none ∧
      (extractPipeline env cutoff collected).messages =
        (dateTrimNodes env cutoff (sequencedNodes collected)).filterMap extractOne) := by
  constructor
  · intro h
    unfold extractPipeline
    simp [h]
  · intro h
    unfold extractPipeline
    simp [h, extractLoop_eq_filterMap]

theorem pipeline_failure_vs_skip_witness :
    extractPipeline envIso none [] =
      { messages := [], error := some "No messages could be extracted." } ∧
    (extractPipeline envIso none [rawDupOfFirst, rawNoAuthor]).error = none ∧
    (extractPipeline envIso none [rawDupOfFirst, rawNoAuthor]).messages =
      (dateTrimNodes envIso none
        (sequencedNodes [rawDupOfFirst, rawNoAuthor])).filterMap extractOne :=
  ⟨(pipeline_failure_vs_skip envIso none []).1 (by decide),
   (pipeline_failure_vs_skip envIso none [rawDupOfFirst, rawNoAuthor]).2 (by decide)⟩

/-- C6, counterexample: a collected node list whose single node has a
message body (so it survives dedup) but no author element produces
`{ messages := [], error := none }` — a silently empty success, not a
failure with a reason, refuting the claim for the all-malformed case. -/
theorem all_malformed_silent_success_counterexample :
    extractPipeline envIso none [rawNoAuthor] =
      { messages := [], error := none } := by decide

/-- C7: in the analyzer's report, when the archives whose `ageDays` lies
within 14 days of the maximum number three or more, the explanation
contains the clustering phrase suggesting a shared visibility boundary;
when they number fewer than three, the explanation is exactly the generic
oldest-observed-is-N-days message. -/
theorem cluster_branches (fmtDE : Int → String) (now : Int)
    (files : List (String × String))
    (hne : (analyzeRetention fmtDE now files).chatRanges ≠ []) :
    (3 ≤ ((analyzeRetention fmtDE now files).chatRanges.filter
        (fun c => (analyzeRetention fmtDE now files).maxOldestAgeDays - 14 ≤ c.ageDays)).length →
      ∃ pre post, (analyzeRetention fmtDE now files).explanation = pre ++ "cluster" ++ post) ∧
    (((analyzeRetention fmtDE now files).chatRanges.filter
        (fun c => (analyzeRetention fmtDE now files).maxOldestAgeDays - 14 ≤ c.ageDays)).length < 3 →
      (analyzeRetention fmtDE now files).explanation =
        genericExplanation (analyzeRetention fmtDE now files).maxOldestAgeDays) := by
  cases hs : (chatRangesOf now files).insertionSort (fun a b => b.ageDays ≤ a.ageDays) with
  | nil => exact absurd (analyzeRetention_nil fmtDE now files hs) hne
  | cons first restR =>
    obtain ⟨hcr, hmax, hexp⟩ := analyzeRetention_cons fmtDE now files first restR hs
    rw [hcr, hmax, hexp]
    constructor
    · intro hge
      rw [if_pos hge]
      exact clusterExplanation_decomp _ _ _
    · intro hlt
      rw [if_neg (by omega)]

set_option maxRecDepth 8000 in
theorem cluster_branches_witness :
    ∃ pre post,
      (analyzeRetention (fun _ => "1. Januar 2025") 1750377600000 clusterFiles).explanation =
        pre ++ "cluster" ++ post :=
  (cluster_branches (fun _ => "1. Januar 2025") 1750377600000 clusterFiles (by decide)).1
    (by decide)

set_option maxRecDepth 8000 in
/-- C8: for a two-message same-author batch on consecutive calendar days
(any locale environment rendering the two timestamps as distinct day keys
and the given heading/content strings), the rendered output has exactly
two day headings, exactly one `---` day separator, and the bold author
label exactly twice; and for two consecutive same-author same-day
messages it has exactly one bold author label and exactly one time-only
continuation line. -/
theorem day_grouping_counts (env : JsEnv)
    (h1 : env.dayKey "2025-06-15T10:00:00Z" = "Sun Jun 15 2025")
    (h2 : env.dayKey "2025-06-16T10:00:00Z" = "Mon Jun 16 2025")
    (h3 : env.fmtDate "2025-06-15T10:00:00Z" = "Sunday, June 15, 2025")
    (h4 : env.fmtDate "2025-06-16T10:00:00Z" = "Monday, June 16, 2025")
    (h5 : env.htmlToText "Hello" = "Hello")
    (h6 : env.htmlToText "World" = "World")
    (h7 : env.dayKey "2025-06-15T10:30:00Z" = "Sun Jun 15 2025")
    (h8 : env.dayKey "2025-06-15T10:31:00Z" = "Sun Jun 15 2025")
    (h9 : env.fmtDate "2025-06-15T10:30:00Z" = "Sunday, June 15, 2025")
    (h10 : env.htmlToText "First" = "First")
    (h11 : env.htmlToText "Second" = "Second") :
    (countLines isDayHeadingLine (messagesToMarkdown env [msgDayOne, msgDayTwo]) = 2 ∧
     countLines isSepLine (messagesToMarkdown env [msgDayOne, msgDayTwo]) = 1 ∧
     countLines (isBoldAuthorLine "Alice") (messagesToMarkdown env [msgDayOne, msgDayTwo]) = 2) ∧
    (countLines (isBoldAuthorLine "Alice") (messagesToMarkdown env [msgSameDayA, msgSameDayB]) = 1 ∧
     countLines isContinuationLine (messagesToMarkdown env [msgSameDayA, msgSameDayB]) = 1) := by
  have eA : messagesToMarkdown env [msgDayOne, msgDayTwo] =
      joinNl
        ["## Sunday, June 15, 2025", "", "**Alice** [2025-06-15T10:00:00Z]:", "Hello", "",
         "", "---", "", "## Monday, June 16, 2025", "", "**Alice** [2025-06-16T10:00:00Z]:",
         "World", ""] := by
    simp [messagesToMarkdown, messagesToMarkdownLines, mtmLoop, msgDayOne, msgDayTwo,
      h1, h2, h3, h4, h5, h6]
    decide
  have eB : messagesToMarkdown env [msgSameDayA, msgSameDayB] =
      joinNl
        ["## Sunday, June 15, 2025", "", "**Alice** [2025-06-15T10:30:00Z]:", "First", "",
         "*[2025-06-15T10:31:00Z]:*", "Second", ""] := by
    simp [messagesToMarkdown, messagesToMarkdownLines, mtmLoop, msgSameDayA, msgSameDayB,
      h7, h8, h9, h10, h11]
    decide
  rw [eA, eB]
  exact ⟨⟨by decide, by decide, by decide⟩, by decide, by decide⟩

set_option maxRecDepth 8000 in
theorem day_grouping_counts_witness :
    (countLines isDayHeadingLine (messagesToMarkdown envC8 [msgDayOne, msgDayTwo]) = 2 ∧
     countLines isSepLine (messagesToMarkdown envC8 [msgDayOne, msgDayTwo]) = 1 ∧
     countLines (isBoldAuthorLine "Alice") (messagesToMarkdown envC8 [msgDayOne, msgDayTwo]) = 2) ∧
    (countLines (isBoldAuthorLine "Alice") (messagesToMarkdown envC8 [msgSameDayA, msgSameDayB]) = 1 ∧
     countLines isContinuationLine (messagesToMarkdown envC8 [msgSameDayA, msgSameDayB]) = 1) :=
  day_grouping_counts envC8 (by decide) (by decide) (by decide) (by decide) (by decide)
    (by decide) (by decide) (by decide) (by decide) (by decide) (by decide)

set_option maxRecDepth 8000 in
/-- C9: `sanitizeFilename` maps the hostile-character example to
`foo_bar_baz_qux`, trims `_hello_` to `hello`, collapses runs, cuts a
300-character input to exactly 200 characters, and never returns more
than 200 characters. -/
theorem sanitizeFilename_spec :
    sanitizeFilename "foo/bar\\baz:qux*\"<>|" = "foo_bar_baz_qux" ∧
    sanitizeFilename "_hello_" = "hello" ∧
    sanitizeFilename "hello   world__test" = "hello_world_test" ∧
    (sanitizeFilename (String.mk (List.replicate 300 'a'))).length = 200 ∧
    ∀ s : String, (sanitizeFilename s).length ≤ 200 := by
  refine ⟨by decide, by decide, by decide, by decide, ?_⟩
  intro s
  show (String.mk ((trimOneUnderscore _).take 200)).length ≤ 200
  simp [String.length]

/-- C10: when the archive file exists but contains no cursor marker,
`saveChat` with a nonempty batch takes the fresh-export path: the new
file content is the fresh header plus rendered body plus new marker, with
none of the previously persisted content retained. -/
theorem fresh_overwrite_when_no_marker (env : JsEnv) (chatName now : String)
    (messages : List ExtractedMessage) (old : String)
    (hNoMark : findMarkerCapture old.data = none)
    (hNe : messages ≠ []) :
    saveChat env chatName messages (some old) now =
      (messages.length,
       some ("# " ++ chatName ++ "\n\nExported: " ++ now ++ "\n\n" ++
         messagesToMarkdown env messages ++ "\n" ++
         markerString (messages.getLast hNe).timestamp ++ "\n")) := by
  unfold saveChat getLatestTimestampStr
  simp [hNoMark, hNe]

theorem fresh_overwrite_when_no_marker_witness :
    saveChat envIso "Chat" msgsAscending (some plainOldContent) "2025-06-20T00:00:00.000Z" =
      (2,
       some ("# Chat\n\nExported: 2025-06-20T00:00:00.000Z\n\n" ++
         messagesToMarkdown envIso msgsAscending ++ "\n" ++
         markerString "2025-01-02T00:00:00Z" ++ "\n")) :=
  fresh_overwrite_when_no_marker envIso "Chat" "2025-06-20T00:00:00.000Z" msgsAscending
    plainOldContent (by decide) (by decide)
